import Mathlib

/-!
Verification of the Excel table-segmentation service.

The development shallowly embeds the program's core (`utils.py`: title
location, boundary calculation, table extraction, table cleanup) and the
relevant parts of its HTTP layer (`main.py`: store replacement on upload,
row sums).  Grids are modelled as `Grid` (dimensions plus a cell function,
cells are the strings obtained after the spreadsheet decoder's
`fillna("")`, so a blank cell is exactly the empty string).  DataFrames
flowing through the pipeline are modelled as `List (List String)` in
row-major order; positional and label-based selection coincide because
every intermediate frame carries distinct labels, and `reset_index` is the
identity on this representation.  Floating-point thresholds and cell
values are modelled over `ℚ`.
-/

/-- A fully decoded spreadsheet: `rows × cols` cells, addressed row-major.
Missing cells are represented by `""` (the decoder does `fillna("")`). -/
structure Grid where
  rows : Nat
  cols : Nat
  cell : Nat → Nat → String

/-- Build a `Grid` from a rectangular list-of-rows literal. -/
def gridOfLists (l : List (List String)) : Grid :=
  ⟨l.length, (l.headD []).length, fun r c => (l.getD r []).getD c ""⟩

/-- The fixed catalog of exact table titles to anchor on (`TABLE_TITLES`). -/
def TABLE_TITLES : List String :=
  ["INITIAL INVESTMENT",
   "CASHFLOW DETAILS",
   "DISCOUNT RATE",
   "WORKING CAPITAL",
   "GROWTH RATES",
   "SALVAGE VALUE",
   "OPERATING CASHFLOWS",
   "BOOK VALUE & DEPRECIATION",
   "Investment Measures"]

/-- A cell is blank exactly when it is the empty string (after the
decoder's `fillna("")`; `extract_table_block` later turns `""` into
`pd.NA`, which `isna` sees as missing). -/
def isBlank (s : String) : Bool := s == ""

/-- Python's `str.strip()`: remove leading and trailing whitespace. -/
def pyStrip (s : String) : String :=
  ⟨((s.data.dropWhile Char.isWhitespace).reverse.dropWhile Char.isWhitespace).reverse⟩

/-- Python's `list.sort()` on `(row, col, title)` tuples compares
lexicographically.  Within one scan no two occurrences share `(row, col)`
(each cell is visited once), so the `title` component never decides the
comparison; the modelled order compares `(row, col)` only. -/
def posLE (p q : Nat × Nat × String) : Prop :=
  p.1 < q.1 ∨ (p.1 = q.1 ∧ p.2.1 ≤ q.2.1)

/-- Strict row-major order on title occurrences. -/
def posLT (p q : Nat × Nat × String) : Prop :=
  p.1 < q.1 ∨ (p.1 = q.1 ∧ p.2.1 < q.2.1)

instance : DecidableRel posLE := fun p q =>
  inferInstanceAs (Decidable (p.1 < q.1 ∨ (p.1 = q.1 ∧ p.2.1 ≤ q.2.1)))

instance : DecidableRel posLT := fun p q =>
  inferInstanceAs (Decidable (p.1 < q.1 ∨ (p.1 = q.1 ∧ p.2.1 < q.2.1)))

instance : IsTotal (Nat × Nat × String) posLE := by
  constructor
  intro a b
  rcases Nat.lt_trichotomy a.1 b.1 with h | h | h
  · exact Or.inl (Or.inl h)
  · rcases Nat.le_total a.2.1 b.2.1 with h2 | h2
    · exact Or.inl (Or.inr ⟨h, h2⟩)
    · exact Or.inr (Or.inr ⟨h.symm, h2⟩)
  · exact Or.inr (Or.inl h)

instance : IsTrans (Nat × Nat × String) posLE := by
  constructor
  rintro a b c (h | ⟨h, h2⟩) (h' | ⟨h', h2'⟩)
  · exact Or.inl (Nat.lt_trans h h')
  · exact Or.inl (h' ▸ h)
  · exact Or.inl (h ▸ h')
  · exact Or.inr ⟨h.trans h', Nat.le_trans h2 h2'⟩

/-- The raw row-major scan of `locate_table_titles`: every cell whose
trimmed value is a catalog title yields a `(row, col, title)` occurrence,
rows outer, columns inner. -/
def locate_scan (g : Grid) : List (Nat × Nat × String) :=
  (List.range g.rows).flatMap fun r =>
    (List.range g.cols).filterMap fun c =>
      let cell := pyStrip (g.cell r c)
      if cell ∈ TABLE_TITLES then some (r, c, cell) else none

/-- `locate_table_titles`: scan the grid for catalog titles and sort the
occurrences (`title_positions.sort()`). -/
def locate_table_titles (g : Grid) : List (Nat × Nat × String) :=
  List.insertionSort posLE (locate_scan g)

/-- The `title_rows` accumulation loop of `calculate_row_boundaries`:
append each occurrence's row unless it is already present. -/
def collectRows : List (Nat × Nat × String) → List Nat → List Nat
  | [], acc => acc
  | p :: rest, acc => collectRows rest (if p.1 ∈ acc then acc else acc ++ [p.1])

/-- Pair each list element with its successor in the list, the last one
with `total`.  This is the indexed loop shared by
`calculate_row_boundaries` (building `row_boundaries[this_row] = next_row`)
and `determine_horizontal_boundaries` (building `segments`). -/
def consecPairs : List Nat → Nat → List (Nat × Nat)
  | [], _ => []
  | a :: rest, total => (a, rest.headD total) :: consecPairs rest total

/-- Dictionary lookup with a default, for the `row_boundaries` mapping. -/
def lookupD : List (Nat × Nat) → Nat → Nat → Nat
  | [], _, d => d
  | (k, v) :: rest, r, d => if k = r then v else lookupD rest r d

/-- The element following `r` in the list, or `total` when `r` is last
(specification-side companion of `consecPairs` lookups). -/
def nextAfter : List Nat → Nat → Nat → Nat
  | [], total, _ => total
  | a :: rest, total, r => if a = r then rest.headD total else nextAfter rest total r

/-- `calculate_row_boundaries`: the distinct anchor rows, sorted; each is
mapped to the next anchor row, the last one to `total_rows`. -/
def calculate_row_boundaries (title_positions : List (Nat × Nat × String))
    (total_rows : Nat) : List (Nat × Nat) :=
  consecPairs (List.insertionSort (· ≤ ·) (collectRows title_positions [])) total_rows

/-- `group_titles_by_row` as a function: the columns of the occurrences on
row `r`, in occurrence order (the dict's per-key insertion order). -/
def row_to_cols (title_positions : List (Nat × Nat × String)) (r : Nat) : List Nat :=
  (title_positions.filter (fun p => p.1 == r)).map (fun p => p.2.1)

/-- `determine_horizontal_boundaries`: full width by default; with several
titles on the row, the first segment `[col_i, col_{i+1})` (last segment
ending at `total_cols`) that contains `start_col`. -/
def determine_horizontal_boundaries (start_row start_col : Nat)
    (rowCols : Nat → List Nat) (total_cols : Nat) : Nat × Nat :=
  let cols_on_this_row := List.insertionSort (· ≤ ·) (rowCols start_row)
  if 1 < cols_on_this_row.length then
    match (consecPairs cols_on_this_row total_cols).find?
        (fun seg => decide (seg.1 ≤ start_col) && decide (start_col < seg.2)) with
    | some seg => (seg.1, seg.2)
    | none => (0, total_cols)
  else
    (0, total_cols)

/-- The rectangular slice `df.iloc[top:bottom, left:right]`. -/
def subGrid (g : Grid) (top bottom left right : Nat) : List (List String) :=
  (List.range' top (bottom - top)).map fun r =>
    (List.range' left (right - left)).map fun c => g.cell r c

/-- `shape[1]` of a block in the list-of-rows representation (all rows of
a block produced by this pipeline have equal length). -/
def ncolsOf (block : List (List String)) : Nat := (block.headD []).length

/-- `extract_table_block`: slice the rectangle, treat `""` as `pd.NA`,
drop fully-empty rows, then fully-empty columns (evaluated on the
row-dropped block), and re-index. -/
def extract_table_block (g : Grid) (top bottom left right : Nat) : List (List String) :=
  let block := subGrid g top bottom left right
  let keptRows := block.filter (fun row => !(row.all isBlank))
  let keepCols := (List.range (right - left)).filter
    (fun j => keptRows.any (fun row => !(isBlank (row.getD j ""))))
  keptRows.map (fun row => keepCols.map (fun j => row.getD j ""))

/-- A source rectangle `[top, bottom) × [left, right)` in original grid
coordinates. -/
structure Rect where
  top : Nat
  bottom : Nat
  left : Nat
  right : Nat
deriving DecidableEq

/-- Membership of a cell in a rectangle, as the code's mask stores it. -/
def Rect.containsCell (rc : Rect) (r c : Nat) : Bool :=
  decide (rc.top ≤ r) && decide (r < rc.bottom) &&
    decide (rc.left ≤ c) && decide (c < rc.right)

/-- The `already_used` boolean grid, represented by the list of marked
rectangles: the marking loop sets exactly the in-bounds cells of the
emitted rectangle (the `rr < len(already_used)` / `cc < len(already_used[0])`
guards), and the only query is a single-cell read. -/
def maskLookup (used : List Rect) (rows cols r c : Nat) : Bool :=
  used.any (fun rc => rc.containsCell r c && decide (r < rows) && decide (c < cols))

/-- Lookup in the `title_counts` dict (association list in insertion
order). -/
def lookupCount : List (String × Nat) → String → Option Nat
  | [], _ => none
  | (k, v) :: rest, key => if k = key then some v else lookupCount rest key

/-- Write to the `title_counts` dict. -/
def setCount : List (String × Nat) → String → Nat → List (String × Nat)
  | [], key, v => [(key, v)]
  | (k, w) :: rest, key, v =>
    if k = key then (k, v) :: rest else (k, w) :: setCount rest key v

/-- The duplicate-title handling of `find_tables_in_spreadsheet`: a first
occurrence of `base` uses the bare name and records count 0; a repeat
increments the count to `n + 1` and uses `base ++ " (n+1)"`. -/
def resolveName (counts : List (String × Nat)) (base : String) :
    List (String × Nat) × String :=
  match lookupCount counts base with
  | some n => (setCount counts base (n + 1), base ++ " (" ++ Nat.repr (n + 1) ++ ")")
  | none => (setCount counts base 0, base)

/-- One emitted table: its base title, resolved display name, source
rectangle and extracted block.  `find_tables_in_spreadsheet` returns the
`(name, block)` projection; the rest is carried for specification. -/
structure Entry where
  base : String
  name : String
  rect : Rect
  block : List (List String)
deriving DecidableEq

/-- The main extraction loop of `find_tables_in_spreadsheet`, processing
`title_positions` in order against the used-cell mask and the
duplicate-title counts. -/
def extractLoop (g : Grid) (rowB : List (Nat × Nat)) (rowCols : Nat → List Nat) :
    List (Nat × Nat × String) → List Rect → List (String × Nat) → List Entry
  | [], _, _ => []
  | (start_row, start_col, base_title) :: rest, used, counts =>
    if maskLookup used g.rows g.cols start_row start_col then
      extractLoop g rowB rowCols rest used counts
    else
      let rn := resolveName counts base_title
      let top := start_row
      let bottom := lookupD rowB start_row 0
      let lr := determine_horizontal_boundaries start_row start_col rowCols g.cols
      let block := extract_table_block g top bottom lr.1 lr.2
      if 2 ≤ block.length ∧ 2 ≤ ncolsOf block then
        ⟨base_title, rn.2, ⟨top, bottom, lr.1, lr.2⟩, block⟩ ::
          extractLoop g rowB rowCols rest (⟨top, bottom, lr.1, lr.2⟩ :: used) rn.1
      else
        extractLoop g rowB rowCols rest used rn.1

/-- `find_tables_in_spreadsheet`, instrumented form: the emitted entries in
insertion order. -/
def find_tables_entries (g : Grid) : List Entry :=
  let title_positions := locate_table_titles g
  extractLoop g (calculate_row_boundaries title_positions g.rows)
    (row_to_cols title_positions) title_positions [] []

/-- `find_tables_in_spreadsheet`: mapping (in insertion order) from
resolved table name to raw extracted block. -/
def find_tables_in_spreadsheet (g : Grid) : List (String × List (List String)) :=
  (find_tables_entries g).map (fun e => (e.name, e.block))

/-- The source rectangles of the emitted tables, in emission order. -/
def find_tables_rects (g : Grid) : List Rect :=
  (find_tables_entries g).map (fun e => e.rect)

/-- The rectangle the loop computes for an anchor, given the precomputed
row boundaries and per-row columns. -/
def rectWith (rowB : List (Nat × Nat)) (rowCols : Nat → List Nat) (total_cols : Nat)
    (p : Nat × Nat × String) : Rect :=
  let lr := determine_horizontal_boundaries p.1 p.2.1 rowCols total_cols
  ⟨p.1, lookupD rowB p.1 0, lr.1, lr.2⟩

/-- The rectangle assigned to an occurrence of `locate_table_titles g`. -/
def rectOf (g : Grid) (p : Nat × Nat × String) : Rect :=
  rectWith (calculate_row_boundaries (locate_table_titles g) g.rows)
    (row_to_cols (locate_table_titles g)) g.cols p

/-- The raw block extracted for an occurrence. -/
def blockOf (g : Grid) (p : Nat × Nat × String) : List (List String) :=
  extract_table_block g (rectOf g p).top (rectOf g p).bottom
    (rectOf g p).left (rectOf g p).right

/-- An occurrence is keepable when its extracted block passes the
`shape[0] >= 2 and shape[1] >= 2` check. -/
def keepable (g : Grid) (p : Nat × Nat × String) : Bool :=
  decide (2 ≤ (blockOf g p).length) && decide (2 ≤ ncolsOf (blockOf g p))

/-- The extraction loop with the used-cell mask dropped.  The mask test
never fires on well-formed input (each anchor's cell lies in its own
rectangle only); `extractLoop_eq_emitPure` proves the two agree. -/
def emitPure (g : Grid) (rowB : List (Nat × Nat)) (rowCols : Nat → List Nat) :
    List (Nat × Nat × String) → List (String × Nat) → List Entry
  | [], _ => []
  | (start_row, start_col, base_title) :: rest, counts =>
    let rn := resolveName counts base_title
    let top := start_row
    let bottom := lookupD rowB start_row 0
    let lr := determine_horizontal_boundaries start_row start_col rowCols g.cols
    let block := extract_table_block g top bottom lr.1 lr.2
    if 2 ≤ block.length ∧ 2 ≤ ncolsOf block then
      ⟨base_title, rn.2, ⟨top, bottom, lr.1, lr.2⟩, block⟩ ::
        emitPure g rowB rowCols rest rn.1
    else
      emitPure g rowB rowCols rest rn.1

/-! ## Table cleaner (`filter_rows_columns`, `trim_blank_edges`,
`clean_up_table`) -/

/-- Number of blank cells in a row. -/
def countBlank (row : List String) : Nat := (row.filter isBlank).length

/-- Number of blank cells in column `j` across the given rows. -/
def colBlankCount (rows : List (List String)) (j : Nat) : Nat :=
  (rows.filter (fun row => isBlank (row.getD j ""))).length

/-- The sparsity-keep test `isna().mean(axis) <= max_frac`.  A mean over
an empty axis is `NaN` in pandas, and `NaN <= x` is false, so an empty
axis is never kept. -/
def fracKeep (blanks total : Nat) (maxFrac : ℚ) : Bool :=
  (!(total == 0)) && decide ((blanks : ℚ) / (total : ℚ) ≤ maxFrac)

/-- `filter_rows_columns`: drop rows whose blank fraction exceeds
`maxRowFrac` (source: `max_empty_row_ratio`), then drop columns whose
blank fraction over the remaining rows exceeds `maxColFrac`
(`max_empty_col_ratio`). -/
def filter_rows_columns (df : List (List String)) (maxRowFrac maxColFrac : ℚ) :
    List (List String) :=
  let keptRows := df.filter (fun row => fracKeep (countBlank row) row.length maxRowFrac)
  let keepCols := (List.range (df.headD []).length).filter
    (fun j => fracKeep (colBlankCount keptRows j) keptRows.length maxColFrac)
  keptRows.map (fun row => keepCols.map (fun j => row.getD j ""))

/-- The leading-blank scan of `trim_blank_edges`: walk the pattern while
blank, and set `start = i + 1` whenever the running streak exceeds
`max_blank_streak`.  Call shape: index and streak advance together. -/
def leadStartAux (maxStreak : Nat) : List Bool → Nat → Nat → Nat → Nat
  | [], _, _, start => start
  | b :: rest, i, run, start =>
    if b then
      leadStartAux maxStreak rest (i + 1) (run + 1)
        (if maxStreak < run + 1 then i + 1 else start)
    else start

/-- The computed `start` trim point. -/
def leadStart (pattern : List Bool) (maxStreak : Nat) : Nat :=
  leadStartAux maxStreak pattern 0 0 0

/-- The trailing-blank scan: walk the reversed pattern while blank, and
set `end = len - 1 - (i + 1)` whenever the streak exceeds the tolerance.
`ℕ`-subtraction truncates the Python value `-1` to `0`; that happens only
when the whole pattern is blank, in which case `start = len` already makes
the selected slice empty. -/
def tailEndAux (maxStreak len : Nat) : List Bool → Nat → Nat → Nat → Nat
  | [], _, _, e => e
  | b :: rest, i, run, e =>
    if b then
      tailEndAux maxStreak len rest (i + 1) (run + 1)
        (if maxStreak < run + 1 then len - 1 - (i + 1) else e)
    else e

/-- The computed `end` trim point (inclusive). -/
def tailEnd (pattern : List Bool) (maxStreak : Nat) : Nat :=
  tailEndAux maxStreak pattern.length pattern.reverse 0 0 (pattern.length - 1)

/-- `trim_blank_edges`: select index labels `start ..= end` on the chosen
axis.  The labels of every frame reaching this function are distinct, so
`loc` on the contiguous label slice equals positional slicing. -/
def trim_blank_edges (data : List (List String)) (by_rows : Bool) (maxStreak : Nat) :
    List (List String) :=
  let pattern :=
    if by_rows then data.map (fun row => row.all isBlank)
    else (List.range (ncolsOf data)).map
      (fun j => data.all (fun row => isBlank (row.getD j "")))
  let start := leadStart pattern maxStreak
  let e := tailEnd pattern maxStreak
  if by_rows then (data.drop start).take (e + 1 - start)
  else data.map (fun row => (row.drop start).take (e + 1 - start))

/-- `clean_up_table`: sparsity filtering, then edge trimming on rows and
on columns, then re-indexing (the identity on the list representation).
The source's default arguments are `0.6`, `0.6`, `1`. -/
def clean_up_table (table : List (List String)) (maxRowFrac maxColFrac : ℚ)
    (maxStreak : Nat) : List (List String) :=
  let df := filter_rows_columns table maxRowFrac maxColFrac
  let df := trim_blank_edges df true maxStreak
  let df := trim_blank_edges df false maxStreak
  df

/-- `convert_table_to_list`: `str()` of every cell.  Cells that were blank
have been `pd.NA` since `extract_table_block`, and `str(pd.NA)` is
`"<NA>"`; every other cell is already a string. -/
def convert_table_to_list (table : List (List String)) : List (List String) :=
  table.map (fun row => row.map (fun cell => if isBlank cell then "<NA>" else cell))

/-- `process_excel_file` after the byte-decoding step: the decoded grid
(`pd.read_excel(...).fillna("")`) is the input; each raw table is cleaned
with the default thresholds and converted to lists. -/
def process_excel_file (g : Grid) : List (String × List (List String)) :=
  (find_tables_in_spreadsheet g).map
    (fun te => (te.1, convert_table_to_list (clean_up_table te.2 0.6 0.6 1)))

/-! ## Specification-side notions -/

/-- Length of the maximal leading run of `true` in a pattern. -/
def countLeadTrue : List Bool → Nat
  | [] => 0
  | b :: rest => if b then countLeadTrue rest + 1 else 0

/-- Two rectangles share no cell of the original grid. -/
def RectDisjoint (a b : Rect) : Prop :=
  ∀ r c, a.containsCell r c = true → b.containsCell r c = true → False

/-- A grid row containing at least one title occurrence. -/
def isAnchorRow (g : Grid) (r : Nat) : Prop :=
  ∃ p ∈ locate_table_titles g, (p : Nat × Nat × String).1 = r

/-- The exclusive bottom row the extractor assigns to anchor row `r`
(`row_boundaries[start_row]`). -/
def verticalBoundOf (g : Grid) (r : Nat) : Nat :=
  lookupD (calculate_row_boundaries (locate_table_titles g) g.rows) r 0

/-- The `[left, right)` span the extractor assigns to an anchor. -/
def horizontalOf (g : Grid) (r c : Nat) : Nat × Nat :=
  determine_horizontal_boundaries r c (row_to_cols (locate_table_titles g)) g.cols

/-- The names and blocks emitted for the occurrences of one base title
`T`, given the current counter state for `T`: with no counter entry the
next occurrence is named bare `T`; with counter `n` it is named
`T (n+1)`.  Only keepable occurrences emit, but every occurrence advances
the counter. -/
def buildEmits (g : Grid) (T : String) :
    Option Nat → List (Nat × Nat × String) → List (String × List (List String))
  | _, [] => []
  | cnt, p :: rest =>
    (if keepable g p then
      [((match cnt with
         | none => T
         | some n => T ++ " (" ++ Nat.repr (n + 1) ++ ")"), blockOf g p)]
    else []) ++
      buildEmits g T (some (match cnt with | none => 0 | some n => n + 1)) rest

/-- The sorted list of distinct anchor rows used by
`calculate_row_boundaries`. -/
def anchorRowsSorted (g : Grid) : List Nat :=
  List.insertionSort (· ≤ ·) (collectRows (locate_table_titles g) [])

/-! ## Concrete instances used by counterexamples and witnesses -/

/-- 2 × 3 grid: a single anchor whose raw block passes the 2 × 2 size
check but whose second row is 2/3 blank, so cleaning drops it. -/
def cexGridC1 : Grid := gridOfLists [["DISCOUNT RATE", "x", "y"], ["a", "", ""]]

/-- 13 × 8 grid: "DISCOUNT RATE" alone on row 5, next anchor row 12. -/
def gridC4 : Grid :=
  { rows := 13, cols := 8,
    cell := fun r c =>
      if r = 5 ∧ c = 0 then "DISCOUNT RATE"
      else if r = 12 ∧ c = 0 then "CASHFLOW DETAILS"
      else "" }

/-- 9 × 2 grid: "DISCOUNT RATE" occurs three times, each block keepable. -/
def gridC5 : Grid := gridOfLists
  [["DISCOUNT RATE", ""], ["a", "b"], ["c", "d"],
   ["DISCOUNT RATE", ""], ["a", "b"], ["c", "d"],
   ["DISCOUNT RATE", ""], ["a", "b"], ["c", "d"]]

/-- 5 × 3 grid: the first "DISCOUNT RATE" block is degenerate (1 × 1
after dropping blanks), the second is keepable. -/
def gridC10 : Grid := gridOfLists
  [["DISCOUNT RATE", "", ""],
   ["", "", ""],
   ["DISCOUNT RATE", "", ""],
   ["a", "b", ""],
   ["c", "d", ""]]

/-- 6 × 5 block on which the edge-trimming passes of `clean_up_table` do
remove rows: column filtering leaves the two leading rows fully blank. -/
def cexBlockC9 : List (List String) :=
  [["a", "b", "", "", ""],
   ["c", "d", "", "", ""],
   ["", "", "x", "y", "z"],
   ["", "", "x", "y", "z"],
   ["", "", "x", "y", "z"],
   ["", "", "x", "y", "z"]]

/-! ## The HTTP-layer pieces the claims need (`main.py`) -/

/-- A model of Python `float()` on the decimal forms that occur in cells:
optional surrounding whitespace, optional sign, digits with an optional
fractional part.  Anything else (including the empty string and `"<NA>"`)
fails.  Exotic accepted forms (`"inf"`, `"nan"`, exponents) are not
modelled; no claim depends on them. -/
def digitsToNat (l : List Char) : Nat :=
  l.foldl (fun n c => 10 * n + (c.toNat - '0'.toNat)) 0

/-- Parse a cell as a number, or fail. -/
def parseFloat (s : String) : Option ℚ :=
  let l := (pyStrip s).data
  let sl : ℚ × List Char :=
    match l with
    | '-' :: rest => (-1, rest)
    | '+' :: rest => (1, rest)
    | _ => (1, l)
  let intPart := sl.2.takeWhile Char.isDigit
  let rest := sl.2.dropWhile Char.isDigit
  match rest with
  | [] =>
    if intPart.isEmpty then none
    else some (sl.1 * (digitsToNat intPart : ℚ))
  | '.' :: frac =>
    if frac.all Char.isDigit && !(intPart.isEmpty && frac.isEmpty) then
      some (sl.1 * ((digitsToNat intPart : ℚ) +
        (digitsToNat frac : ℚ) / (10 : ℚ) ^ frac.length))
    else none
  | _ => none

/-- The accumulation loop of the `row_sum` endpoint: sum `float(cell)`
over all cells after the first, silently skipping cells that fail to
parse. -/
def row_sum_total (row : List String) : ℚ :=
  (row.drop 1).foldl
    (fun total cell =>
      match parseFloat cell with
      | some x => total + x
      | none => total) 0

/-- The in-memory table store (`db`): name to cleaned table content. -/
def TableStore := List (String × List (List String))

/-- `upload_excel` as a state transformer on the store.  The byte read and
decode is external; its outcome is the `decoded` argument (`Except.error`
models `process_excel_file` raising).  On any failure the handler raises
before `db.clear()`; on success the store is wholesale-replaced. -/
def upload_excel (db : List (String × List (List String))) (filename : String)
    (decoded : Except String Grid) :
    List (String × List (List String)) × Except Nat (List String) :=
  let fname := filename.toLower
  if !(fname.endsWith ".xls" || fname.endsWith ".xlsx") then
    (db, Except.error 400)
  else
    match decoded with
    | Except.error _ => (db, Except.error 500)
    | Except.ok g =>
      let tables := process_excel_file g
      (tables, Except.ok (tables.map Prod.fst))

/-! # Theorems -/

/-! ## Row sums (C7) and store preservation (C6) -/

theorem row_sum_foldl_eq (l : List String) (init : ℚ) :
    l.foldl
      (fun total cell =>
        match parseFloat cell with
        | some x => total + x
        | none => total) init = init + (l.filterMap parseFloat).sum := by
  induction l generalizing init with
  | nil => simp
  | cons a l ih =>
    cases h : parseFloat a with
    | none => simp [List.foldl_cons, h, ih, List.filterMap_cons]
    | some x => simp [List.foldl_cons, h, ih, List.filterMap_cons, add_assoc]

set_option maxHeartbeats 4000000 in
/-- C7: the row-sum of a table row is the sum of the numeric-parseable
cells among all cells except the first (the row's name), non-numeric
cells contributing zero without error; in particular
`["Revenue", "100", "abc", "50.5"]` sums to `150.5`, and a row whose
remaining cells are all non-numeric sums to `0`. -/
theorem C7_row_sum_spec :
    (∀ row : List String,
      row_sum_total row = ((row.drop 1).filterMap parseFloat).sum) ∧
    row_sum_total ["Revenue", "100", "abc", "50.5"] = 301 / 2 ∧
    row_sum_total ["X", "abc", "", "zz"] = 0 := by
  refine ⟨fun row => ?_, ?_, ?_⟩
  · unfold row_sum_total
    rw [row_sum_foldl_eq, zero_add]
  · with_unfolding_all decide
  · with_unfolding_all decide

/-- C6: if processing of an uploaded file fails (the decoder or
segmentation raises), the table store is exactly what it was before the
upload — no partial replacement. -/
theorem C6_upload_failure_preserves_store (db : List (String × List (List String)))
    (fname : String) (err : String) :
    (upload_excel db fname (Except.error err)).1 = db := by
  cases h : fname.toLower.endsWith ".xls" || fname.toLower.endsWith ".xlsx" with
  | true => simp [upload_excel, h]
  | false => simp [upload_excel, h]

/-! ## Edge trimming: characterization of the computed trim points -/

theorem leadStartAux_spec (t : Nat) : ∀ (p : List Bool) (i s : Nat),
    leadStartAux t p i i s =
      if 0 < countLeadTrue p ∧ t < i + countLeadTrue p then i + countLeadTrue p
      else s := by
  intro p
  induction p with
  | nil => intro i s; simp [leadStartAux, countLeadTrue]
  | cons b rest ih =>
    intro i s
    cases b with
    | false => simp [leadStartAux, countLeadTrue]
    | true =>
      simp only [leadStartAux, countLeadTrue, if_true]
      rw [ih (i + 1)]
      split_ifs <;> omega

theorem tailEndAux_spec (t len : Nat) : ∀ (p : List Bool) (i e : Nat),
    tailEndAux t len p i i e =
      if 0 < countLeadTrue p ∧ t < i + countLeadTrue p then
        len - 1 - (i + countLeadTrue p)
      else e := by
  intro p
  induction p with
  | nil => intro i e; simp [tailEndAux, countLeadTrue]
  | cons b rest ih =>
    intro i e
    cases b with
    | false => simp [tailEndAux, countLeadTrue]
    | true =>
      simp only [tailEndAux, countLeadTrue, if_true]
      rw [ih (i + 1)]
      split_ifs <;> omega

theorem leadStart_eq (p : List Bool) (t : Nat) :
    leadStart p t = if countLeadTrue p ≤ t then 0 else countLeadTrue p := by
  unfold leadStart
  rw [leadStartAux_spec]
  split_ifs <;> omega

theorem tailEnd_eq (p : List Bool) (t : Nat) :
    tailEnd p t =
      if countLeadTrue p.reverse ≤ t then p.length - 1
      else p.length - 1 - countLeadTrue p.reverse := by
  unfold tailEnd
  rw [tailEndAux_spec]
  split_ifs <;> omega

theorem countLeadTrue_le_length : ∀ l : List Bool, countLeadTrue l ≤ l.length := by
  intro l
  induction l with
  | nil => simp [countLeadTrue]
  | cons b rest ih =>
    cases b <;> simp [countLeadTrue] <;> omega

theorem countLeadTrue_eq_length_iff (l : List Bool) :
    countLeadTrue l = l.length ↔ ∀ b ∈ l, b = true := by
  induction l with
  | nil => simp [countLeadTrue]
  | cons b rest ih =>
    cases b with
    | false =>
      have h1 : countLeadTrue (false :: rest) = 0 := rfl
      constructor
      · intro h
        rw [h1, List.length_cons] at h
        omega
      · intro h
        exact absurd (h false (by simp)) (by simp)
    | true =>
      have h1 : countLeadTrue (true :: rest) = countLeadTrue rest + 1 := rfl
      rw [h1, List.length_cons, Nat.add_right_cancel_iff, ih]
      simp

theorem countLeadTrue_eq_zero_of_all_false {l : List Bool}
    (h : ∀ b ∈ l, b = false) : countLeadTrue l = 0 := by
  cases l with
  | nil => rfl
  | cons b rest =>
    have hb : b = false := h b (by simp)
    simp [countLeadTrue, hb]

theorem getElem_true_of_lt_countLeadTrue :
    ∀ (l : List Bool) (i : Nat) (h : i < l.length), i < countLeadTrue l → l[i] = true := by
  intro l
  induction l with
  | nil => intro i h; simp at h
  | cons b rest ih =>
    intro i h hi
    cases b with
    | false => simp [countLeadTrue] at hi
    | true =>
      cases i with
      | zero => rfl
      | succ j =>
        simp only [countLeadTrue, if_true] at hi
        simpa using ih j (by simpa using h) (by omega)

/-! ## Trimming equations and C2 -/

theorem trim_rows_eq (data : List (List String)) (t L M s m : Nat)
    (hL : L = countLeadTrue (data.map (fun row => row.all isBlank)))
    (hM : M = countLeadTrue (data.map (fun row => row.all isBlank)).reverse)
    (hs : s = if L ≤ t then 0 else L)
    (hm : m = if M ≤ t then 0 else M) :
    trim_blank_edges data true t = (data.drop s).take (data.length - m - s) := by
  subst hs hm
  have hplen : (data.map (fun row => row.all isBlank)).length = data.length :=
    List.length_map _ _
  show (data.drop (leadStart (data.map (fun row => row.all isBlank)) t)).take
      (tailEnd (data.map (fun row => row.all isBlank)) t + 1 -
        leadStart (data.map (fun row => row.all isBlank)) t) = _
  rw [leadStart_eq, tailEnd_eq, ← hL, ← hM, hplen]
  by_cases hMt : M ≤ t
  · rw [if_pos hMt, if_pos hMt]
    by_cases hn : data.length = 0
    · have hd : data = [] := List.length_eq_zero.mp hn
      subst hd; simp
    · congr 1
      omega
  · rw [if_neg hMt, if_neg hMt]
    have hMle : M ≤ data.length := by
      have := countLeadTrue_le_length (data.map (fun row => row.all isBlank)).reverse
      rw [List.length_reverse, hplen] at this
      omega
    by_cases hMn : M = data.length
    · have hall : ∀ x ∈ (data.map fun row => row.all isBlank), x = true := by
        intro x hx
        have h2 := (countLeadTrue_eq_length_iff
          ((data.map fun row => row.all isBlank)).reverse).mp
          (by rw [← hM, hMn, List.length_reverse, hplen])
        exact h2 x (List.mem_reverse.mpr hx)
      have hLn : L = data.length := by
        rw [hL, (countLeadTrue_eq_length_iff _).mpr hall, hplen]
      have hs' : ¬ L ≤ t := by omega
      rw [if_neg hs', hLn, List.drop_length]
      simp
    · congr 1
      omega

theorem trim_cols_eq (data : List (List String)) (t L M s m : Nat)
    (hrect : ∀ row ∈ data, row.length = ncolsOf data)
    (hL : L = countLeadTrue ((List.range (ncolsOf data)).map
      (fun j => data.all (fun row => isBlank (row.getD j "")))))
    (hM : M = countLeadTrue ((List.range (ncolsOf data)).map
      (fun j => data.all (fun row => isBlank (row.getD j "")))).reverse)
    (hs : s = if L ≤ t then 0 else L)
    (hm : m = if M ≤ t then 0 else M) :
    trim_blank_edges data false t =
      data.map (fun row => (row.drop s).take (ncolsOf data - m - s)) := by
  subst hs hm
  have hplen : ((List.range (ncolsOf data)).map
      (fun j => data.all (fun row => isBlank (row.getD j "")))).length = ncolsOf data := by
    rw [List.length_map, List.length_range]
  show data.map (fun row =>
      (row.drop (leadStart ((List.range (ncolsOf data)).map
        (fun j => data.all (fun row => isBlank (row.getD j "")))) t)).take
      (tailEnd ((List.range (ncolsOf data)).map
        (fun j => data.all (fun row => isBlank (row.getD j "")))) t + 1 -
        leadStart ((List.range (ncolsOf data)).map
        (fun j => data.all (fun row => isBlank (row.getD j "")))) t)) = _
  rw [leadStart_eq, tailEnd_eq, ← hL, ← hM, hplen]
  apply List.map_congr_left
  intro row hrow
  have hw : row.length = ncolsOf data := hrect row hrow
  by_cases hMt : M ≤ t
  · rw [if_pos hMt, if_pos hMt]
    by_cases hn : ncolsOf data = 0
    · have hrow0 : row = [] := List.length_eq_zero.mp (by omega)
      subst hrow0; simp
    · congr 1
      omega
  · rw [if_neg hMt, if_neg hMt]
    have hMle : M ≤ ncolsOf data := by
      have := countLeadTrue_le_length ((List.range (ncolsOf data)).map
        (fun j => data.all (fun row => isBlank (row.getD j "")))).reverse
      rw [List.length_reverse, hplen] at this
      omega
    by_cases hMn : M = ncolsOf data
    · have hall : ∀ x ∈ ((List.range (ncolsOf data)).map
          (fun j => data.all (fun row => isBlank (row.getD j "")))), x = true := by
        intro x hx
        have h2 := (countLeadTrue_eq_length_iff
          ((List.range (ncolsOf data)).map
            (fun j => data.all (fun row => isBlank (row.getD j "")))).reverse).mp
          (by rw [← hM, hMn, List.length_reverse, hplen])
        exact h2 x (List.mem_reverse.mpr hx)
      have hLn : L = ncolsOf data := by
        rw [hL, (countLeadTrue_eq_length_iff _).mpr hall, hplen]
      have hs' : ¬ L ≤ t := by omega
      rw [if_neg hs', hLn, ← hw, List.drop_length]
      simp
    · congr 1
      omega

/-- C2 counterexample: with tolerance 1 and a leading run of two blank
rows, the code trims the whole run (output `[["a"]]`); the claim predicts
one preserved blank row (`[[""], ["a"]]`). -/
theorem C2_counterexample :
    trim_blank_edges [[""], [""], ["a"]] true 1 = [["a"]] ∧
    trim_blank_edges [[""], [""], ["a"]] true 1 ≠ [[""], ["a"]] := by
  constructor
  · decide
  · decide

/-- C2 (amended): on each axis, when the maximal leading (resp. trailing)
run of fully-blank lines has length at most the tolerance, the whole run
is preserved; when it exceeds the tolerance the ENTIRE run is trimmed (no
blank lines are preserved at that edge) — not just the part beyond the
tolerance. -/
theorem C2_trim_blank_edges_amended (data : List (List String)) (t : Nat)
    (hrect : ∀ row ∈ data, row.length = ncolsOf data) :
    (trim_blank_edges data true t =
      (data.drop
        (if countLeadTrue (data.map (fun row => row.all isBlank)) ≤ t then 0
         else countLeadTrue (data.map (fun row => row.all isBlank)))).take
        (data.length -
          (if countLeadTrue (data.map (fun row => row.all isBlank)).reverse ≤ t then 0
           else countLeadTrue (data.map (fun row => row.all isBlank)).reverse) -
          (if countLeadTrue (data.map (fun row => row.all isBlank)) ≤ t then 0
           else countLeadTrue (data.map (fun row => row.all isBlank))))) ∧
    (trim_blank_edges data false t =
      data.map (fun row =>
        (row.drop
          (if countLeadTrue ((List.range (ncolsOf data)).map
              (fun j => data.all (fun row => isBlank (row.getD j "")))) ≤ t then 0
           else countLeadTrue ((List.range (ncolsOf data)).map
              (fun j => data.all (fun row => isBlank (row.getD j "")))))).take
          (ncolsOf data -
            (if countLeadTrue ((List.range (ncolsOf data)).map
                (fun j => data.all (fun row => isBlank (row.getD j "")))).reverse ≤ t then 0
             else countLeadTrue ((List.range (ncolsOf data)).map
                (fun j => data.all (fun row => isBlank (row.getD j "")))).reverse) -
            (if countLeadTrue ((List.range (ncolsOf data)).map
                (fun j => data.all (fun row => isBlank (row.getD j "")))) ≤ t then 0
             else countLeadTrue ((List.range (ncolsOf data)).map
                (fun j => data.all (fun row => isBlank (row.getD j "")))))))) :=
  ⟨trim_rows_eq data t _ _ _ _ rfl rfl rfl rfl,
   trim_cols_eq data t _ _ _ _ hrect rfl rfl rfl rfl⟩

theorem C2_trim_blank_edges_amended_witness :
    (∀ row ∈ [["x", "y"]], List.length row = ncolsOf [["x", "y"]]) ∧
    trim_blank_edges [["x", "y"]] true 1 = [["x", "y"]] ∧
    trim_blank_edges [["x", "y"]] false 1 = [["x", "y"]] :=
  ⟨by decide, C2_trim_blank_edges_amended [["x", "y"]] 1 (by decide)⟩

/-! ## Cleaner identity on already-clean blocks (C8) -/

theorem map_getD_range (row : List String) :
    (List.range row.length).map (fun j => row.getD j "") = row := by
  apply List.ext_getElem
  · simp
  · intro i h1 h2
    simp [List.getElem_map, List.getElem_range, List.getD_eq_getElem,
      List.getElem?_eq_getElem h2]

/-- C8: a block that is already clean — no row or column whose blank
fraction exceeds its threshold, and no leading or trailing fully-blank
run longer than the tolerance, on either axis — is returned unchanged by
`clean_up_table`. -/
theorem C8_clean_up_table_identity (b : List (List String))
    (maxRowFrac maxColFrac : ℚ) (t : Nat)
    (hrect : ∀ row ∈ b, row.length = ncolsOf b)
    (hrows : ∀ row ∈ b, fracKeep (countBlank row) row.length maxRowFrac = true)
    (hcols : ∀ j < ncolsOf b, fracKeep (colBlankCount b j) b.length maxColFrac = true)
    (hlead : countLeadTrue (b.map (fun row => row.all isBlank)) ≤ t)
    (htail : countLeadTrue (b.map (fun row => row.all isBlank)).reverse ≤ t)
    (hclead : countLeadTrue ((List.range (ncolsOf b)).map
      (fun j => b.all (fun row => isBlank (row.getD j "")))) ≤ t)
    (hctail : countLeadTrue ((List.range (ncolsOf b)).map
      (fun j => b.all (fun row => isBlank (row.getD j "")))).reverse ≤ t) :
    clean_up_table b maxRowFrac maxColFrac t = b := by
  have hkept : b.filter (fun row => fracKeep (countBlank row) row.length maxRowFrac) = b :=
    List.filter_eq_self.mpr hrows
  have hF : filter_rows_columns b maxRowFrac maxColFrac = b := by
    simp only [filter_rows_columns]
    rw [hkept, show (b.headD []).length = ncolsOf b from rfl]
    have hcolsall : (List.range (ncolsOf b)).filter
        (fun j => fracKeep (colBlankCount b j) b.length maxColFrac) =
        List.range (ncolsOf b) :=
      List.filter_eq_self.mpr (fun j hj => hcols j (List.mem_range.mp hj))
    rw [hcolsall]
    have hid : ∀ row ∈ b, (List.range (ncolsOf b)).map (fun j => row.getD j "") = id row := by
      intro row hrow
      have h1 := map_getD_range row
      rw [hrect row hrow] at h1
      exact h1
    rw [List.map_congr_left hid, List.map_id]
  have hTR : trim_blank_edges b true t = b := by
    rw [trim_rows_eq b t (countLeadTrue (b.map (fun row => row.all isBlank)))
        (countLeadTrue (b.map (fun row => row.all isBlank)).reverse) 0 0 rfl rfl
        (if_pos hlead).symm (if_pos htail).symm]
    simp
  have hTC : trim_blank_edges b false t = b := by
    rw [trim_cols_eq b t (countLeadTrue ((List.range (ncolsOf b)).map
          (fun j => b.all (fun row => isBlank (row.getD j "")))))
        (countLeadTrue ((List.range (ncolsOf b)).map
          (fun j => b.all (fun row => isBlank (row.getD j "")))).reverse) 0 0 hrect rfl rfl
        (if_pos hclead).symm (if_pos hctail).symm]
    have hid : ∀ row ∈ b, (row.drop 0).take (ncolsOf b - 0 - 0) = id row := by
      intro row hrow
      have hw := hrect row hrow
      simp only [List.drop_zero, Nat.sub_zero, id]
      rw [← hw, List.take_length]
    rw [List.map_congr_left hid, List.map_id]
  show trim_blank_edges (trim_blank_edges
    (filter_rows_columns b maxRowFrac maxColFrac) true t) false t = b
  rw [hF, hTR, hTC]

theorem C8_clean_up_table_identity_witness :
    (∀ row ∈ [["a", "b"], ["c", "d"]], List.length row = ncolsOf [["a", "b"], ["c", "d"]]) ∧
    (∀ row ∈ [["a", "b"], ["c", "d"]],
      fracKeep (countBlank row) row.length 0.6 = true) ∧
    (∀ j < ncolsOf [["a", "b"], ["c", "d"]],
      fracKeep (colBlankCount [["a", "b"], ["c", "d"]] j)
        (List.length [["a", "b"], ["c", "d"]]) 0.6 = true) ∧
    clean_up_table [["a", "b"], ["c", "d"]] 0.6 0.6 1 = [["a", "b"], ["c", "d"]] :=
  ⟨by decide, by with_unfolding_all decide, by with_unfolding_all decide,
   C8_clean_up_table_identity [["a", "b"], ["c", "d"]] 0.6 0.6 1
     (by decide) (by with_unfolding_all decide) (by with_unfolding_all decide)
     (by decide) (by decide) (by decide) (by decide)⟩

/-! ## The cleaner is not the sparsity filter alone (C9) -/

set_option maxHeartbeats 4000000 in
/-- C9 counterexample: on `cexBlockC9` with the default thresholds the
edge-trimming passes are not the identity after filtering — column
filtering leaves the first two surviving rows fully blank and the row
trim then removes them, so `clean_up_table` differs from
`filter_rows_columns` alone. -/
theorem C9_counterexample :
    clean_up_table cexBlockC9 0.6 0.6 1 ≠ filter_rows_columns cexBlockC9 0.6 0.6 ∧
    clean_up_table cexBlockC9 0.6 0.6 1 =
      [["x", "y", "z"], ["x", "y", "z"], ["x", "y", "z"], ["x", "y", "z"]] ∧
    filter_rows_columns cexBlockC9 0.6 0.6 =
      [["", "", ""], ["", "", ""],
       ["x", "y", "z"], ["x", "y", "z"], ["x", "y", "z"], ["x", "y", "z"]] := by
  refine ⟨?_, ?_, ?_⟩ <;> with_unfolding_all decide

theorem fracKeep_bound {cnt total : Nat} {f : ℚ} (h : fracKeep cnt total f = true)
    (hf : f < 1) : cnt < total := by
  unfold fracKeep at h
  rw [Bool.and_eq_true] at h
  obtain ⟨h1, h2⟩ := h
  have htot : 0 < total := by
    rcases Nat.eq_zero_or_pos total with h0 | h0
    · rw [h0] at h1; simp at h1
    · exact h0
  have h3 : (cnt : ℚ) / (total : ℚ) ≤ f := of_decide_eq_true h2
  have h4 : (cnt : ℚ) / (total : ℚ) < 1 := lt_of_le_of_lt h3 hf
  have h5 : (cnt : ℚ) < (total : ℚ) := by
    rw [div_lt_one (by exact_mod_cast htot)] at h4
    exact h4
  exact_mod_cast h5

theorem exists_not_of_filter_length_lt {α : Type} {p : α → Bool} {l : List α}
    (h : (l.filter p).length < l.length) : ∃ x ∈ l, p x = false := by
  by_contra hc
  push_neg at hc
  have hall : ∀ x ∈ l, p x = true := by
    intro x hx
    have h2 := hc x hx
    cases hpx : p x
    · exact absurd hpx h2
    · rfl
  rw [List.filter_eq_self.mpr hall] at h
  exact lt_irrefl _ h

/-- The output of `filter_rows_columns` is its row-filtered input
restricted to a set of kept columns, each of which passed the sparsity
test. -/
theorem filter_rows_columns_spec (df : List (List String)) (q1 q2 : ℚ) :
    ∃ keepCols : List Nat,
      filter_rows_columns df q1 q2 =
        (df.filter (fun row => fracKeep (countBlank row) row.length q1)).map
          (fun row => keepCols.map (fun j => row.getD j "")) ∧
      ∀ c ∈ keepCols,
        fracKeep
          (colBlankCount
            (df.filter (fun row => fracKeep (countBlank row) row.length q1)) c)
          (df.filter (fun row => fracKeep (countBlank row) row.length q1)).length
          q2 = true := by
  refine ⟨(List.range (df.headD []).length).filter
    (fun j => fracKeep
      (colBlankCount (df.filter (fun row => fracKeep (countBlank row) row.length q1)) j)
      (df.filter (fun row => fracKeep (countBlank row) row.length q1)).length q2),
    rfl, ?_⟩
  intro c hc
  exact (List.mem_filter.mp hc).2

theorem mem_of_mem_rowtrim {F : List (List String)} {t : Nat} {row : List String}
    (h : row ∈ trim_blank_edges F true t) : row ∈ F := by
  rw [trim_rows_eq F t _ _ _ _ rfl rfl rfl rfl] at h
  exact List.mem_of_mem_drop (List.mem_of_mem_take h)

/-- A row with a non-blank cell is never removed by the row-axis trim. -/
theorem mem_rowtrim_of_not_blank (F : List (List String)) (t i : Nat)
    (hi : i < F.length) (hfalse : F[i].all isBlank = false) :
    F[i] ∈ trim_blank_edges F true t := by
  rw [trim_rows_eq F t (countLeadTrue (F.map (fun row => row.all isBlank)))
    (countLeadTrue (F.map (fun row => row.all isBlank)).reverse) _ _ rfl rfl rfl rfl]
  have hplen : (F.map (fun row => row.all isBlank)).length = F.length :=
    List.length_map _ _
  have him : i < (F.map (fun row => row.all isBlank)).length := by omega
  have hpi : (F.map (fun row => row.all isBlank))[i] = false := by
    simpa using hfalse
  have hiL : countLeadTrue (F.map (fun row => row.all isBlank)) ≤ i := by
    by_contra hc
    push_neg at hc
    have h2 := getElem_true_of_lt_countLeadTrue
      (F.map (fun row => row.all isBlank)) i him hc
    rw [h2] at hpi
    cases hpi
  have hMle : countLeadTrue (F.map (fun row => row.all isBlank)).reverse ≤ F.length := by
    have h2 := countLeadTrue_le_length (F.map (fun row => row.all isBlank)).reverse
    rw [List.length_reverse, hplen] at h2
    exact h2
  have hMlt : countLeadTrue (F.map (fun row => row.all isBlank)).reverse < F.length := by
    rcases Nat.lt_or_ge (countLeadTrue (F.map (fun row => row.all isBlank)).reverse)
      F.length with h2 | h2
    · exact h2
    · exfalso
      have hMeq : countLeadTrue (F.map (fun row => row.all isBlank)).reverse =
          (F.map (fun row => row.all isBlank)).reverse.length := by
        rw [List.length_reverse, hplen]; omega
      have hall := (countLeadTrue_eq_length_iff
        (F.map (fun row => row.all isBlank)).reverse).mp hMeq
      have h3 := hall ((F.map (fun row => row.all isBlank))[i])
        (List.mem_reverse.mpr (List.getElem_mem him))
      rw [hpi] at h3
      cases h3
  have hiM : i ≤ F.length - 1 -
      countLeadTrue (F.map (fun row => row.all isBlank)).reverse := by
    by_contra hc
    push_neg at hc
    have hrevlen : F.length - 1 - i <
        (F.map (fun row => row.all isBlank)).reverse.length := by
      rw [List.length_reverse, hplen]; omega
    have hrev : (F.map (fun row => row.all isBlank)).reverse[F.length - 1 - i] =
        (F.map (fun row => row.all isBlank))[i] := by
      rw [List.getElem_reverse]
      congr 1
      rw [hplen]
      omega
    have htrue := getElem_true_of_lt_countLeadTrue
      ((F.map (fun row => row.all isBlank)).reverse) (F.length - 1 - i) hrevlen
      (by omega)
    rw [hrev, hpi] at htrue
    cases htrue
  have hsle : (if countLeadTrue (F.map (fun row => row.all isBlank)) ≤ t then 0
      else countLeadTrue (F.map (fun row => row.all isBlank))) ≤ i := by
    split <;> omega
  have hmlt : i < F.length -
      (if countLeadTrue (F.map (fun row => row.all isBlank)).reverse ≤ t then 0
       else countLeadTrue (F.map (fun row => row.all isBlank)).reverse) := by
    split <;> omega
  have hlen2 : i - (if countLeadTrue (F.map (fun row => row.all isBlank)) ≤ t then 0
      else countLeadTrue (F.map (fun row => row.all isBlank))) <
      (F.drop (if countLeadTrue (F.map (fun row => row.all isBlank)) ≤ t then 0
        else countLeadTrue (F.map (fun row => row.all isBlank)))).length := by
    rw [List.length_drop]
    omega
  have hlen1 : i - (if countLeadTrue (F.map (fun row => row.all isBlank)) ≤ t then 0
      else countLeadTrue (F.map (fun row => row.all isBlank))) <
      ((F.drop (if countLeadTrue (F.map (fun row => row.all isBlank)) ≤ t then 0
        else countLeadTrue (F.map (fun row => row.all isBlank)))).take
        (F.length -
          (if countLeadTrue (F.map (fun row => row.all isBlank)).reverse ≤ t then 0
           else countLeadTrue (F.map (fun row => row.all isBlank)).reverse) -
          (if countLeadTrue (F.map (fun row => row.all isBlank)) ≤ t then 0
           else countLeadTrue (F.map (fun row => row.all isBlank))))).length := by
    rw [List.length_take]
    omega
  have hget : ((F.drop (if countLeadTrue (F.map (fun row => row.all isBlank)) ≤ t then 0
      else countLeadTrue (F.map (fun row => row.all isBlank)))).take
      (F.length -
        (if countLeadTrue (F.map (fun row => row.all isBlank)).reverse ≤ t then 0
         else countLeadTrue (F.map (fun row => row.all isBlank)).reverse) -
        (if countLeadTrue (F.map (fun row => row.all isBlank)) ≤ t then 0
         else countLeadTrue (F.map (fun row => row.all isBlank)))))[
      i - (if countLeadTrue (F.map (fun row => row.all isBlank)) ≤ t then 0
        else countLeadTrue (F.map (fun row => row.all isBlank)))] = F[i] := by
    rw [List.getElem_take, List.getElem_drop]
    congr 1
    omega
  rw [← hget]
  exact List.getElem_mem hlen1

/-- C9 (amended): for any column threshold strictly below 1, the
column-axis trim pass of `clean_up_table` is the identity (every kept
column retains a non-blank cell, whose row also survives the row trim),
but the row-axis trim pass is not: column filtering can leave surviving
rows fully blank, so `clean_up_table` equals `filter_rows_columns`
followed by the row-axis trim (and re-indexing), not the filter alone. -/
theorem C9_clean_up_table_amended (b : List (List String))
    (maxRowFrac maxColFrac : ℚ) (t : Nat) (hcol1 : maxColFrac < 1) :
    clean_up_table b maxRowFrac maxColFrac t =
      trim_blank_edges (filter_rows_columns b maxRowFrac maxColFrac) true t := by
  show trim_blank_edges (trim_blank_edges
    (filter_rows_columns b maxRowFrac maxColFrac) true t) false t = _
  obtain ⟨keepCols, hFeq, hkc⟩ := filter_rows_columns_spec b maxRowFrac maxColFrac
  rw [hFeq]
  set kr := b.filter (fun row => fracKeep (countBlank row) row.length maxRowFrac) with hkr
  set F := kr.map (fun row => keepCols.map (fun j => row.getD j "")) with hF
  set D := trim_blank_edges F true t with hD
  by_cases hDnil : D = []
  · rw [hDnil]
    rfl
  · have hFrowlen : ∀ row ∈ F, row.length = keepCols.length := by
      intro row hrow
      rw [hF] at hrow
      obtain ⟨r, _, hreq⟩ := List.mem_map.mp hrow
      rw [← hreq, List.length_map]
    have hDrows : ∀ row ∈ D, row.length = keepCols.length :=
      fun row hrow => hFrowlen row (mem_of_mem_rowtrim hrow)
    obtain ⟨hd, tl, hDcons⟩ := List.exists_cons_of_ne_nil hDnil
    have hK : ncolsOf D = keepCols.length := by
      rw [hDcons]
      exact hDrows hd (by rw [hDcons]; exact List.mem_cons_self _ _)
    have hcolnb : ∀ j, j < keepCols.length →
        ∃ row ∈ D, isBlank (row.getD j "") = false := by
      intro j hj
      have hkeep := hkc keepCols[j] (keepCols.getElem_mem hj)
      have hcnt : colBlankCount kr keepCols[j] < kr.length :=
        fracKeep_bound hkeep hcol1
      obtain ⟨r, hrmem, hrfalse⟩ := exists_not_of_filter_length_lt hcnt
      obtain ⟨i, hilt, hieq⟩ := List.getElem_of_mem hrmem
      have hiltF : i < F.length := by
        rw [hF, List.length_map]
        exact hilt
      have hFi : F[i] = keepCols.map (fun c => r.getD c "") := by
        simp only [hF, List.getElem_map]
        rw [hieq]
      have hcell : (F[i]).getD j "" = r.getD keepCols[j] "" := by
        rw [hFi]
        have hjlen : j < (keepCols.map (fun c => r.getD c "")).length := by
          rw [List.length_map]; exact hj
        rw [List.getD_eq_getElem _ _ hjlen, List.getElem_map]
      have hnotall : (F[i]).all isBlank = false := by
        cases hall : (F[i]).all isBlank
        · rfl
        · exfalso
          have hmemcell : (F[i]).getD j "" ∈ F[i] := by
            have hjlen : j < (F[i]).length := by
              rw [hFi, List.length_map]; exact hj
            rw [List.getD_eq_getElem _ _ hjlen]
            exact List.getElem_mem _
          have h3 := List.all_eq_true.mp hall _ hmemcell
          rw [hcell, hrfalse] at h3
          cases h3
      refine ⟨F[i], mem_rowtrim_of_not_blank F t i hiltF hnotall, ?_⟩
      rw [hcell]
      exact hrfalse
    have hq : ∀ x ∈ (List.range (ncolsOf D)).map
        (fun j => D.all (fun row => isBlank (row.getD j ""))), x = false := by
      intro x hx
      obtain ⟨j, hjmem, hxeq⟩ := List.mem_map.mp hx
      have hj : j < keepCols.length := by
        rw [← hK]
        exact List.mem_range.mp hjmem
      obtain ⟨row, hrD, hrfalse⟩ := hcolnb j hj
      rw [← hxeq]
      cases hall : D.all (fun row => isBlank (row.getD j ""))
      · rfl
      · exfalso
        have h3 := List.all_eq_true.mp hall row hrD
        rw [hrfalse] at h3
        cases h3
    have hq0 : countLeadTrue ((List.range (ncolsOf D)).map
        (fun j => D.all (fun row => isBlank (row.getD j "")))) = 0 :=
      countLeadTrue_eq_zero_of_all_false hq
    have hq0r : countLeadTrue ((List.range (ncolsOf D)).map
        (fun j => D.all (fun row => isBlank (row.getD j "")))).reverse = 0 :=
      countLeadTrue_eq_zero_of_all_false (fun x hx => hq x (List.mem_reverse.mp hx))
    have hDrect : ∀ row ∈ D, row.length = ncolsOf D := by
      intro row hrow
      rw [hK]
      exact hDrows row hrow
    rw [trim_cols_eq D t 0 0 0 0 hDrect hq0.symm hq0r.symm (by simp) (by simp)]
    have hid : ∀ row ∈ D, (row.drop 0).take (ncolsOf D - 0 - 0) = id row := by
      intro row hrow
      have hw := hDrect row hrow
      simp only [List.drop_zero, Nat.sub_zero, id]
      rw [← hw, List.take_length]
    rw [List.map_congr_left hid, List.map_id]

theorem C9_clean_up_table_amended_witness :
    ((0.6 : ℚ) < 1) ∧
    clean_up_table [["a", "b"], ["c", "d"]] 0.6 0.6 1 =
      trim_blank_edges (filter_rows_columns [["a", "b"], ["c", "d"]] 0.6 0.6) true 1 :=
  ⟨by norm_num, C9_clean_up_table_amended [["a", "b"], ["c", "d"]] 0.6 0.6 1 (by norm_num)⟩

/-! ## Size of emitted raw blocks (C1) -/

theorem extractLoop_block_size (g : Grid) (rowB : List (Nat × Nat))
    (rowCols : Nat → List Nat) :
    ∀ (ps : List (Nat × Nat × String)) (used : List Rect)
      (counts : List (String × Nat)),
      ∀ e ∈ extractLoop g rowB rowCols ps used counts,
        2 ≤ e.block.length ∧ 2 ≤ ncolsOf e.block := by
  intro ps
  induction ps with
  | nil =>
    intro used counts e he
    simp [extractLoop] at he
  | cons p rest ih =>
    intro used counts e he
    obtain ⟨sr, sc, bt⟩ := p
    simp only [extractLoop] at he
    split at he
    · exact ih _ _ e he
    · split at he
      next hkeep =>
        rcases List.mem_cons.mp he with rfl | hmem
        · exact hkeep
        · exact ih _ _ e hmem
      next => exact ih _ _ e he

set_option maxHeartbeats 4000000 in
/-- C1 counterexample: on `cexGridC1` the raw block passes the 2 × 2
check, but `clean_up_table` drops its sparse second row, and the final
mapping returned by `process_excel_file` contains a table with a single
row — contradicting the claim that every emitted table has at least two
rows after cleaning. -/
theorem C1_counterexample :
    process_excel_file cexGridC1 =
      [("DISCOUNT RATE", [["DISCOUNT RATE", "x", "y"]])] ∧
    ¬ (2 ≤ [["DISCOUNT RATE", "x", "y"]].length) := by
  constructor
  · with_unfolding_all decide
  · decide

/-- C1 (amended): the 2-rows-2-columns guarantee holds for the raw blocks
emitted by `find_tables_in_spreadsheet` (the size check runs at
extraction, before cleaning); `process_excel_file` applies
`clean_up_table` afterwards and may shrink a table below 2 × 2. -/
theorem C1_find_tables_size (g : Grid) :
    ∀ te ∈ find_tables_in_spreadsheet g, 2 ≤ te.2.length ∧ 2 ≤ ncolsOf te.2 := by
  intro te hte
  simp only [find_tables_in_spreadsheet] at hte
  obtain ⟨e, he, hteq⟩ := List.mem_map.mp hte
  have h2 := extractLoop_block_size g
    (calculate_row_boundaries (locate_table_titles g) g.rows)
    (row_to_cols (locate_table_titles g)) (locate_table_titles g) [] [] e he
  rw [← hteq]
  exact h2

theorem C1_find_tables_size_witness :
    ("DISCOUNT RATE", [["DISCOUNT RATE", ""], ["a", "b"], ["c", "d"]]) ∈
      find_tables_in_spreadsheet gridC5 ∧
    (2 ≤ [["DISCOUNT RATE", ""], ["a", "b"], ["c", "d"]].length ∧
      2 ≤ ncolsOf [["DISCOUNT RATE", ""], ["a", "b"], ["c", "d"]]) :=
  ⟨by decide,
   C1_find_tables_size gridC5
     ("DISCOUNT RATE", [["DISCOUNT RATE", ""], ["a", "b"], ["c", "d"]]) (by decide)⟩

/-! ## Order and shape of the located occurrences -/

theorem pairwise_filterMap_of {α β : Type} (f : α → Option β) {R : α → α → Prop}
    {S : β → β → Prop} : ∀ {l : List α}, List.Pairwise R l →
    (∀ a b x y, R a b → f a = some x → f b = some y → S x y) →
    List.Pairwise S (l.filterMap f) := by
  intro l
  induction l with
  | nil => intro _ _; simp
  | cons a rest ih =>
    intro h hf
    rw [List.filterMap_cons]
    cases hfa : f a with
    | none => exact ih (List.pairwise_cons.mp h).2 hf
    | some x =>
      rw [List.pairwise_cons]
      constructor
      · intro y hy
        obtain ⟨b, hb, hfb⟩ := List.mem_filterMap.mp hy
        exact hf a b x y ((List.pairwise_cons.mp h).1 b hb) hfa hfb
      · exact ih (List.pairwise_cons.mp h).2 hf

theorem pairwise_flatMap_of {α β : Type} (f : α → List β) {S : β → β → Prop} :
    ∀ {l : List α}, (∀ a ∈ l, List.Pairwise S (f a)) →
    List.Pairwise (fun a b => ∀ x ∈ f a, ∀ y ∈ f b, S x y) l →
    List.Pairwise S (l.flatMap f) := by
  intro l
  induction l with
  | nil => intro _ _; simp
  | cons a rest ih =>
    intro h1 h2
    rw [List.flatMap_cons, List.pairwise_append]
    refine ⟨h1 a (List.mem_cons_self _ _),
      ih (fun b hb => h1 b (List.mem_cons_of_mem _ hb)) (List.pairwise_cons.mp h2).2, ?_⟩
    intro x hx y hy
    obtain ⟨b, hb, hyb⟩ := List.mem_flatMap.mp hy
    exact (List.pairwise_cons.mp h2).1 b hb x hx y hyb

theorem locate_scan_row_eq {g : Grid} {r : Nat} {x : Nat × Nat × String}
    (hx : x ∈ (List.range g.cols).filterMap fun c =>
      let cell := pyStrip (g.cell r c)
      if cell ∈ TABLE_TITLES then some (r, c, cell) else none) : x.1 = r := by
  obtain ⟨c, _, hsome⟩ := List.mem_filterMap.mp hx
  simp only at hsome
  split at hsome
  · rw [← Option.some.inj hsome]
  · cases hsome

theorem locate_scan_pairwise (g : Grid) : List.Pairwise posLT (locate_scan g) := by
  unfold locate_scan
  apply pairwise_flatMap_of
  · intro r _
    apply pairwise_filterMap_of _ (List.pairwise_lt_range g.cols)
    intro c1 c2 x y hlt hx hy
    simp only at hx hy
    split at hx
    · split at hy
      · rw [← Option.some.inj hx, ← Option.some.inj hy]
        exact Or.inr ⟨rfl, hlt⟩
      · cases hy
    · cases hx
  · apply List.Pairwise.imp_of_mem ?_ (List.pairwise_lt_range g.rows)
    intro r1 r2 _ _ hlt x hx y hy
    rw [posLT, locate_scan_row_eq hx, locate_scan_row_eq hy]
    exact Or.inl hlt

theorem locate_sorted (g : Grid) : List.Pairwise posLE (locate_table_titles g) :=
  List.sorted_insertionSort posLE (locate_scan g)

theorem locate_perm (g : Grid) : (locate_table_titles g).Perm (locate_scan g) :=
  List.perm_insertionSort posLE (locate_scan g)

theorem locate_mem_iff {g : Grid} {p : Nat × Nat × String} :
    p ∈ locate_table_titles g ↔ p ∈ locate_scan g :=
  (locate_perm g).mem_iff

theorem posLT_key_ne {p q : Nat × Nat × String} (h : posLT p q) :
    (p.1, p.2.1) ≠ (q.1, q.2.1) := by
  intro hx
  rw [Prod.mk.injEq] at hx
  rcases h with h | ⟨h1, h2⟩ <;> omega

theorem locate_pairwiseLT (g : Grid) : List.Pairwise posLT (locate_table_titles g) := by
  have hnd : ((locate_scan g).map (fun p => (p.1, p.2.1))).Nodup := by
    show List.Pairwise (fun a b => a ≠ b) ((locate_scan g).map (fun p => (p.1, p.2.1)))
    rw [List.pairwise_map]
    exact (locate_scan_pairwise g).imp posLT_key_ne
  have hnd2 : ((locate_table_titles g).map (fun p => (p.1, p.2.1))).Nodup :=
    ((locate_perm g).map _).nodup_iff.mpr hnd
  have hkeyne := List.pairwise_map.mp
    (show List.Pairwise (fun a b => a ≠ b)
      ((locate_table_titles g).map (fun p => (p.1, p.2.1))) from hnd2)
  have hand := (locate_sorted g).and hkeyne
  refine hand.imp ?_
  intro a b hab
  obtain ⟨hle, hne⟩ := hab
  rcases hle with h | ⟨h1, h2⟩
  · exact Or.inl h
  · refine Or.inr ⟨h1, lt_of_le_of_ne h2 ?_⟩
    intro hc
    exact hne (by rw [h1, hc])

theorem locate_scan_shape {g : Grid} {p : Nat × Nat × String}
    (hp : p ∈ locate_scan g) :
    p.1 < g.rows ∧ p.2.1 < g.cols ∧ p.2.2 ∈ TABLE_TITLES := by
  unfold locate_scan at hp
  obtain ⟨r, hr, hinner⟩ := List.mem_flatMap.mp hp
  obtain ⟨c, hc, hsome⟩ := List.mem_filterMap.mp hinner
  simp only at hsome
  split at hsome
  next hmem =>
    rw [← Option.some.inj hsome]
    exact ⟨List.mem_range.mp hr, List.mem_range.mp hc, hmem⟩
  next => cases hsome

theorem locate_shape {g : Grid} {p : Nat × Nat × String}
    (hp : p ∈ locate_table_titles g) :
    p.1 < g.rows ∧ p.2.1 < g.cols ∧ p.2.2 ∈ TABLE_TITLES :=
  locate_scan_shape (locate_mem_iff.mp hp)

/-! ## Anchor rows and successor lookups -/

theorem collectRows_mem (ps : List (Nat × Nat × String)) :
    ∀ (acc : List Nat) (x : Nat),
    (x ∈ collectRows ps acc ↔ x ∈ acc ∨ x ∈ ps.map (fun p => p.1)) := by
  induction ps with
  | nil => intro acc x; simp [collectRows]
  | cons p rest ih =>
    intro acc x
    rw [collectRows]
    by_cases hmem : p.1 ∈ acc
    · rw [if_pos hmem, ih]
      simp only [List.map_cons, List.mem_cons]
      have hx : x = p.1 → x ∈ acc := fun h => h ▸ hmem
      tauto
    · rw [if_neg hmem, ih]
      simp only [List.map_cons, List.mem_cons, List.mem_append, List.mem_singleton]
      tauto

theorem collectRows_nodup (ps : List (Nat × Nat × String)) :
    ∀ acc : List Nat, acc.Nodup → (collectRows ps acc).Nodup := by
  induction ps with
  | nil => intro acc h; exact h
  | cons p rest ih =>
    intro acc h
    rw [collectRows]
    by_cases hmem : p.1 ∈ acc
    · rw [if_pos hmem]; exact ih _ h
    · rw [if_neg hmem]
      apply ih
      refine List.Nodup.append h (List.nodup_singleton _) ?_
      intro a ha hb
      rw [List.mem_singleton] at hb
      exact hmem (hb ▸ ha)

theorem anchorRowsSorted_pairwise (g : Grid) :
    List.Pairwise (· < ·) (anchorRowsSorted g) := by
  have hsort : List.Sorted (· ≤ ·) (anchorRowsSorted g) :=
    List.sorted_insertionSort _ _
  have hperm := List.perm_insertionSort (· ≤ ·)
    (collectRows (locate_table_titles g) [])
  have hnd : (anchorRowsSorted g).Nodup :=
    hperm.nodup_iff.mpr (collectRows_nodup _ [] List.nodup_nil)
  have hand := List.Pairwise.and hsort
    (show List.Pairwise (fun a b => a ≠ b) (anchorRowsSorted g) from hnd)
  exact hand.imp (fun h => lt_of_le_of_ne h.1 h.2)

theorem mem_anchorRowsSorted_iff {g : Grid} {r : Nat} :
    r ∈ anchorRowsSorted g ↔ ∃ p ∈ locate_table_titles g,
      (p : Nat × Nat × String).1 = r := by
  unfold anchorRowsSorted
  rw [(List.perm_insertionSort _ _).mem_iff, collectRows_mem]
  simp [List.mem_map, eq_comm]

theorem anchorRows_lt_rows {g : Grid} {r : Nat}
    (h : r ∈ anchorRowsSorted g) : r < g.rows := by
  obtain ⟨p, hp, hpe⟩ := mem_anchorRowsSorted_iff.mp h
  rw [← hpe]
  exact (locate_shape hp).1

theorem lookupD_consecPairs : ∀ (cs : List Nat), List.Pairwise (· < ·) cs →
    ∀ {r : Nat}, r ∈ cs → ∀ (total d : Nat),
    lookupD (consecPairs cs total) r d = nextAfter cs total r := by
  intro cs
  induction cs with
  | nil => intro _ r hr; cases hr
  | cons a rest ih =>
    intro hp r hr total d
    rw [consecPairs, lookupD, nextAfter]
    by_cases ha : a = r
    · rw [if_pos ha, if_pos ha]
    · rw [if_neg ha, if_neg ha]
      rcases List.mem_cons.mp hr with rfl | hr2
      · exact absurd rfl ha
      · exact ih (List.pairwise_cons.mp hp).2 hr2 total d

theorem nextAfter_le : ∀ (cs : List Nat), List.Pairwise (· < ·) cs →
    ∀ {r x : Nat}, r ∈ cs → x ∈ cs → r < x → ∀ total,
    nextAfter cs total r ≤ x := by
  intro cs
  induction cs with
  | nil => intro _ r x hr; cases hr
  | cons a rest ih =>
    intro hp r x hr hx hrx total
    rw [nextAfter]
    rcases List.mem_cons.mp hr with rfl | hr2
    · rw [if_pos rfl]
      rcases List.mem_cons.mp hx with rfl | hx2
      · omega
      · cases rest with
        | nil => cases hx2
        | cons b rest2 =>
          rw [List.headD_cons]
          rcases List.mem_cons.mp hx2 with rfl | hx3
          · exact le_refl _
          · have hbx : b < x :=
              (List.pairwise_cons.mp (List.pairwise_cons.mp hp).2).1 x hx3
            omega
    · have har : a < r := (List.pairwise_cons.mp hp).1 r hr2
      rw [if_neg (by omega)]
      rcases List.mem_cons.mp hx with rfl | hx2
      · omega
      · exact ih (List.pairwise_cons.mp hp).2 hr2 hx2 hrx total

theorem nextAfter_gt : ∀ (cs : List Nat), List.Pairwise (· < ·) cs →
    ∀ {r total : Nat}, r ∈ cs → (∀ x ∈ cs, x < total) →
    r < nextAfter cs total r := by
  intro cs
  induction cs with
  | nil => intro _ r total hr; cases hr
  | cons a rest ih =>
    intro hp r total hr hbound
    rw [nextAfter]
    rcases List.mem_cons.mp hr with rfl | hr2
    · rw [if_pos rfl]
      cases rest with
      | nil => exact hbound r (List.mem_cons_self _ _)
      | cons b rest2 =>
        rw [List.headD_cons]
        exact (List.pairwise_cons.mp hp).1 b (List.mem_cons_self _ _)
    · have har : a < r := (List.pairwise_cons.mp hp).1 r hr2
      rw [if_neg (by omega)]
      exact ih (List.pairwise_cons.mp hp).2 hr2
        (fun x hx => hbound x (List.mem_cons_of_mem _ hx))

theorem nextAfter_mem_or : ∀ (cs : List Nat), List.Pairwise (· < ·) cs →
    ∀ {r total : Nat}, r ∈ cs →
    (nextAfter cs total r ∈ cs ∨
      (nextAfter cs total r = total ∧ ∀ x ∈ cs, x ≤ r)) := by
  intro cs
  induction cs with
  | nil => intro _ r total hr; cases hr
  | cons a rest ih =>
    intro hp r total hr
    rw [nextAfter]
    rcases List.mem_cons.mp hr with rfl | hr2
    · rw [if_pos rfl]
      cases rest with
      | nil =>
        right
        refine ⟨rfl, ?_⟩
        intro x hx
        rcases List.mem_cons.mp hx with rfl | hx2
        · exact le_refl _
        · cases hx2
      | cons b rest2 =>
        left
        rw [List.headD_cons]
        exact List.mem_cons_of_mem _ (List.mem_cons_self _ _)
    · have har : a < r := (List.pairwise_cons.mp hp).1 r hr2
      rw [if_neg (by omega)]
      rcases ih (List.pairwise_cons.mp hp).2 hr2 with h | ⟨heq, hle⟩
      · left; exact List.mem_cons_of_mem _ h
      · right
        refine ⟨heq, ?_⟩
        intro x hx
        rcases List.mem_cons.mp hx with rfl | hx2
        · omega
        · exact hle x hx2

theorem find?_consecPairs : ∀ (cs : List Nat), List.Pairwise (· < ·) cs →
    ∀ {c total : Nat}, c ∈ cs → c < total → (∀ x ∈ cs, x < total) →
    (consecPairs cs total).find?
        (fun seg => decide (seg.1 ≤ c) && decide (c < seg.2)) =
      some (c, nextAfter cs total c) := by
  intro cs
  induction cs with
  | nil => intro _ c total hc; cases hc
  | cons a rest ih =>
    intro hp c total hc hct hbound
    rw [consecPairs, nextAfter]
    rcases List.mem_cons.mp hc with rfl | hc2
    · rw [if_pos rfl]
      cases rest with
      | nil =>
        rw [List.find?_cons_of_pos]
        simp [hct]
      | cons b rest2 =>
        have hcb : c < b := (List.pairwise_cons.mp hp).1 b (List.mem_cons_self _ _)
        rw [List.find?_cons_of_pos]
        simp [hcb]
    · have hac : a < c := (List.pairwise_cons.mp hp).1 c hc2
      rw [if_neg (by omega)]
      cases rest with
      | nil => cases hc2
      | cons b rest2 =>
        have hcb : ¬ (c < b) := by
          rcases List.mem_cons.mp hc2 with rfl | hx2
          · omega
          · have := (List.pairwise_cons.mp (List.pairwise_cons.mp hp).2).1 c hx2
            omega
        rw [List.headD_cons, List.find?_cons_of_neg]
        · exact ih (List.pairwise_cons.mp hp).2 hc2 hct
            (fun x hx => hbound x (List.mem_cons_of_mem _ hx))
        · simp [hcb]

/-! ## Horizontal and vertical boundary characterization (C4) -/

theorem pairwise_cols_of_pairwise_pos (r : Nat) :
    ∀ {l : List (Nat × Nat × String)}, List.Pairwise posLT l →
    (∀ p ∈ l, (p : Nat × Nat × String).1 = r) →
    List.Pairwise (· < ·) (l.map (fun p => p.2.1)) := by
  intro l hp hall
  rw [List.pairwise_map]
  refine List.Pairwise.imp_of_mem ?_ hp
  intro a b ha hb hlt
  rcases hlt with h | ⟨h1, h2⟩
  · rw [hall a ha, hall b hb] at h
    omega
  · exact h2

theorem row_to_cols_pairwise (g : Grid) (r : Nat) :
    List.Pairwise (· < ·) (row_to_cols (locate_table_titles g) r) := by
  unfold row_to_cols
  apply pairwise_cols_of_pairwise_pos r
  · exact (locate_pairwiseLT g).filter _
  · intro p hp
    have h2 := (List.mem_filter.mp hp).2
    simpa using h2

theorem row_to_cols_lt_cols {g : Grid} {r c : Nat}
    (hc : c ∈ row_to_cols (locate_table_titles g) r) : c < g.cols := by
  unfold row_to_cols at hc
  obtain ⟨p, hp, hpe⟩ := List.mem_map.mp hc
  rw [← hpe]
  exact (locate_shape (List.mem_filter.mp hp).1).2.1

theorem mem_row_to_cols {g : Grid} {p : Nat × Nat × String}
    (hp : p ∈ locate_table_titles g) :
    p.2.1 ∈ row_to_cols (locate_table_titles g) p.1 := by
  unfold row_to_cols
  exact List.mem_map.mpr ⟨p, List.mem_filter.mpr ⟨hp, by simp⟩, rfl⟩

theorem sortedCols_pairwise (g : Grid) (r : Nat) :
    List.Pairwise (· < ·)
      (List.insertionSort (· ≤ ·) (row_to_cols (locate_table_titles g) r)) := by
  have hsort : List.Sorted (· ≤ ·)
      (List.insertionSort (· ≤ ·) (row_to_cols (locate_table_titles g) r)) :=
    List.sorted_insertionSort _ _
  have hperm := List.perm_insertionSort (· ≤ ·) (row_to_cols (locate_table_titles g) r)
  have hnd0 : (row_to_cols (locate_table_titles g) r).Nodup := by
    show List.Pairwise (fun a b => a ≠ b) _
    exact (row_to_cols_pairwise g r).imp Nat.ne_of_lt
  have hnd := hperm.nodup_iff.mpr hnd0
  have hand := List.Pairwise.and hsort
    (show List.Pairwise (fun a b => a ≠ b) _ from hnd)
  exact hand.imp (fun h => lt_of_le_of_ne h.1 h.2)

theorem horizontalOf_spec (g : Grid) {r c : Nat}
    (hmem : c ∈ row_to_cols (locate_table_titles g) r) (hc : c < g.cols) :
    ((row_to_cols (locate_table_titles g) r).length ≤ 1 →
      horizontalOf g r c = (0, g.cols)) ∧
    (1 < (row_to_cols (locate_table_titles g) r).length →
      horizontalOf g r c =
        (c, nextAfter (List.insertionSort (· ≤ ·)
          (row_to_cols (locate_table_titles g) r)) g.cols c)) := by
  have hlen : (List.insertionSort (· ≤ ·)
      (row_to_cols (locate_table_titles g) r)).length =
      (row_to_cols (locate_table_titles g) r).length :=
    (List.perm_insertionSort _ _).length_eq
  have hmemS : c ∈ List.insertionSort (· ≤ ·) (row_to_cols (locate_table_titles g) r) :=
    (List.perm_insertionSort _ _).mem_iff.mpr hmem
  have hboundS : ∀ x ∈ List.insertionSort (· ≤ ·)
      (row_to_cols (locate_table_titles g) r), x < g.cols :=
    fun x hx => row_to_cols_lt_cols ((List.perm_insertionSort _ _).mem_iff.mp hx)
  constructor
  · intro h1
    simp only [horizontalOf, determine_horizontal_boundaries]
    rw [if_neg (by omega)]
  · intro h1
    simp only [horizontalOf, determine_horizontal_boundaries]
    rw [if_pos (by omega),
      find?_consecPairs _ (sortedCols_pairwise g r) hmemS hc hboundS]

theorem verticalBoundOf_eq {g : Grid} {r : Nat} (hr : r ∈ anchorRowsSorted g) :
    verticalBoundOf g r = nextAfter (anchorRowsSorted g) g.rows r := by
  unfold verticalBoundOf calculate_row_boundaries
  exact lookupD_consecPairs _ (anchorRowsSorted_pairwise g) hr g.rows 0

theorem isAnchorRow_iff {g : Grid} {r : Nat} :
    isAnchorRow g r ↔ r ∈ anchorRowsSorted g := by
  rw [mem_anchorRowsSorted_iff]
  rfl

/-- C4: each anchor's vertical span runs from its own row to the smallest
anchor row strictly below it, or to the grid's row count when none
exists; its horizontal span is the full width when it is alone on its
row, and otherwise the segment that starts at its own column and ends at
the next title column on the row, or the grid's column count when it is
the rightmost. -/
theorem C4_boundaries (g : Grid) (r c : Nat) (t : String)
    (hmem : (r, c, t) ∈ locate_table_titles g) :
    (r < verticalBoundOf g r ∧
      (∀ r', isAnchorRow g r' → r < r' → verticalBoundOf g r ≤ r') ∧
      (isAnchorRow g (verticalBoundOf g r) ∨
        (verticalBoundOf g r = g.rows ∧ ∀ r', isAnchorRow g r' → r' ≤ r))) ∧
    ((row_to_cols (locate_table_titles g) r).length = 1 →
      horizontalOf g r c = (0, g.cols)) ∧
    (1 < (row_to_cols (locate_table_titles g) r).length →
      (horizontalOf g r c).1 = c ∧ c < (horizontalOf g r c).2 ∧
      (∀ c' ∈ row_to_cols (locate_table_titles g) r, c < c' →
        (horizontalOf g r c).2 ≤ c') ∧
      ((horizontalOf g r c).2 ∈ row_to_cols (locate_table_titles g) r ∨
        ((horizontalOf g r c).2 = g.cols ∧
          ∀ c' ∈ row_to_cols (locate_table_titles g) r, c' ≤ c))) := by
  have hrA : r ∈ anchorRowsSorted g :=
    mem_anchorRowsSorted_iff.mpr ⟨(r, c, t), hmem, rfl⟩
  have hbrows : ∀ x ∈ anchorRowsSorted g, x < g.rows :=
    fun x hx => anchorRows_lt_rows hx
  have hveq := verticalBoundOf_eq hrA
  have hcm : c ∈ row_to_cols (locate_table_titles g) r := mem_row_to_cols hmem
  have hc : c < g.cols := (locate_shape hmem).2.1
  have hsp := horizontalOf_spec g hcm hc
  have hpermc := List.perm_insertionSort (· ≤ ·) (row_to_cols (locate_table_titles g) r)
  have hmemS : c ∈ List.insertionSort (· ≤ ·) (row_to_cols (locate_table_titles g) r) :=
    hpermc.mem_iff.mpr hcm
  have hboundS : ∀ x ∈ List.insertionSort (· ≤ ·)
      (row_to_cols (locate_table_titles g) r), x < g.cols :=
    fun x hx => row_to_cols_lt_cols (hpermc.mem_iff.mp hx)
  refine ⟨⟨?_, ?_, ?_⟩, ?_, ?_⟩
  · rw [hveq]
    exact nextAfter_gt _ (anchorRowsSorted_pairwise g) hrA hbrows
  · intro r' hr' hrr
    rw [hveq]
    exact nextAfter_le _ (anchorRowsSorted_pairwise g) hrA
      (isAnchorRow_iff.mp hr') hrr g.rows
  · rw [hveq]
    rcases nextAfter_mem_or _ (anchorRowsSorted_pairwise g) hrA with h | ⟨heq, hle⟩
    · exact Or.inl (isAnchorRow_iff.mpr h)
    · exact Or.inr ⟨heq, fun r' hr' => hle r' (isAnchorRow_iff.mp hr')⟩
  · intro h1
    exact hsp.1 (by omega)
  · intro h1
    rw [hsp.2 h1]
    refine ⟨rfl, ?_, ?_, ?_⟩
    · exact nextAfter_gt _ (sortedCols_pairwise g r) hmemS hboundS
    · intro c' hc' hcc
      exact nextAfter_le _ (sortedCols_pairwise g r) hmemS
        (hpermc.mem_iff.mpr hc') hcc g.cols
    · rcases nextAfter_mem_or _ (sortedCols_pairwise g r) hmemS with h | ⟨heq, hle⟩
      · exact Or.inl (hpermc.mem_iff.mp h)
      · exact Or.inr ⟨heq, fun c' hc' => hle c' (hpermc.mem_iff.mpr hc')⟩

theorem C4_boundaries_witness :
    (5, 0, "DISCOUNT RATE") ∈ locate_table_titles gridC4 ∧
    verticalBoundOf gridC4 5 = 12 ∧
    horizontalOf gridC4 5 0 = (0, 8) ∧
    ((5 < verticalBoundOf gridC4 5 ∧
      (∀ r', isAnchorRow gridC4 r' → 5 < r' → verticalBoundOf gridC4 5 ≤ r') ∧
      (isAnchorRow gridC4 (verticalBoundOf gridC4 5) ∨
        (verticalBoundOf gridC4 5 = gridC4.rows ∧
          ∀ r', isAnchorRow gridC4 r' → r' ≤ 5))) ∧
    ((row_to_cols (locate_table_titles gridC4) 5).length = 1 →
      horizontalOf gridC4 5 0 = (0, gridC4.cols)) ∧
    (1 < (row_to_cols (locate_table_titles gridC4) 5).length →
      (horizontalOf gridC4 5 0).1 = 0 ∧ 0 < (horizontalOf gridC4 5 0).2 ∧
      (∀ c' ∈ row_to_cols (locate_table_titles gridC4) 5, 0 < c' →
        (horizontalOf gridC4 5 0).2 ≤ c') ∧
      ((horizontalOf gridC4 5 0).2 ∈ row_to_cols (locate_table_titles gridC4) 5 ∨
        ((horizontalOf gridC4 5 0).2 = gridC4.cols ∧
          ∀ c' ∈ row_to_cols (locate_table_titles gridC4) 5, c' ≤ 0)))) :=
  ⟨by decide, by decide, by decide,
   C4_boundaries gridC4 5 0 "DISCOUNT RATE" (by decide)⟩

/-! ## Disjointness of the emitted source rectangles (C3) -/

theorem rectOf_top (g : Grid) (p : Nat × Nat × String) : (rectOf g p).top = p.1 := rfl

theorem rectOf_bottom (g : Grid) (p : Nat × Nat × String) :
    (rectOf g p).bottom = verticalBoundOf g p.1 := rfl

theorem rectOf_left (g : Grid) (p : Nat × Nat × String) :
    (rectOf g p).left = (horizontalOf g p.1 p.2.1).1 := rfl

theorem rectOf_right (g : Grid) (p : Nat × Nat × String) :
    (rectOf g p).right = (horizontalOf g p.1 p.2.1).2 := rfl

theorem containsCell_iff (rc : Rect) (r c : Nat) :
    rc.containsCell r c = true ↔
      (rc.top ≤ r ∧ r < rc.bottom ∧ rc.left ≤ c ∧ c < rc.right) := by
  unfold Rect.containsCell
  simp [Bool.and_eq_true, decide_eq_true_iff, and_assoc]

theorem one_lt_length_of_two_mem {l : List Nat} {a b : Nat}
    (ha : a ∈ l) (hb : b ∈ l) (hne : a ≠ b) : 1 < l.length := by
  cases l with
  | nil => cases ha
  | cons x rest =>
    cases rest with
    | nil =>
      rw [List.mem_singleton] at ha hb
      exact absurd (ha.trans hb.symm) hne
    | cons y rest2 =>
      rw [List.length_cons, List.length_cons]
      omega

theorem cell_in_own_rect {g : Grid} {p : Nat × Nat × String}
    (hp : p ∈ locate_table_titles g) :
    (rectOf g p).containsCell p.1 p.2.1 = true := by
  rw [containsCell_iff, rectOf_top, rectOf_bottom, rectOf_left, rectOf_right]
  have hrA : p.1 ∈ anchorRowsSorted g := mem_anchorRowsSorted_iff.mpr ⟨p, hp, rfl⟩
  have h1 : p.1 < verticalBoundOf g p.1 := by
    rw [verticalBoundOf_eq hrA]
    exact nextAfter_gt _ (anchorRowsSorted_pairwise g) hrA
      (fun x hx => anchorRows_lt_rows hx)
  have hcm := mem_row_to_cols hp
  have hc := (locate_shape hp).2.1
  have hsp := horizontalOf_spec g hcm hc
  by_cases hlen : 1 < (row_to_cols (locate_table_titles g) p.1).length
  · have hl : (horizontalOf g p.1 p.2.1).1 = p.2.1 := by rw [hsp.2 hlen]
    have hr : (horizontalOf g p.1 p.2.1).2 = nextAfter (List.insertionSort (· ≤ ·)
        (row_to_cols (locate_table_titles g) p.1)) g.cols p.2.1 := by rw [hsp.2 hlen]
    rw [hl, hr]
    refine ⟨le_refl _, h1, le_refl _, ?_⟩
    exact nextAfter_gt _ (sortedCols_pairwise g p.1)
      ((List.perm_insertionSort _ _).mem_iff.mpr hcm)
      (fun x hx => row_to_cols_lt_cols ((List.perm_insertionSort _ _).mem_iff.mp hx))
  · have hl : (horizontalOf g p.1 p.2.1).1 = 0 := by rw [hsp.1 (by omega)]
    have hr : (horizontalOf g p.1 p.2.1).2 = g.cols := by rw [hsp.1 (by omega)]
    rw [hl, hr]
    exact ⟨le_refl _, h1, Nat.zero_le _, hc⟩

theorem rectOf_disjoint (g : Grid) {p q : Nat × Nat × String}
    (hp : p ∈ locate_table_titles g) (hq : q ∈ locate_table_titles g)
    (hlt : posLT p q) : RectDisjoint (rectOf g p) (rectOf g q) := by
  intro rr cc hcp hcq
  rw [containsCell_iff, rectOf_top, rectOf_bottom, rectOf_left, rectOf_right] at hcp hcq
  have hpA : p.1 ∈ anchorRowsSorted g := mem_anchorRowsSorted_iff.mpr ⟨p, hp, rfl⟩
  have hqA : q.1 ∈ anchorRowsSorted g := mem_anchorRowsSorted_iff.mpr ⟨q, hq, rfl⟩
  rcases hlt with hlt | ⟨heq, hclt⟩
  · have hb : verticalBoundOf g p.1 ≤ q.1 := by
      rw [verticalBoundOf_eq hpA]
      exact nextAfter_le _ (anchorRowsSorted_pairwise g) hpA hqA hlt g.rows
    omega
  · have hpm := mem_row_to_cols hp
    have hqm0 := mem_row_to_cols hq
    have hqm : q.2.1 ∈ row_to_cols (locate_table_titles g) p.1 := by
      rw [heq]; exact hqm0
    have hlen : 1 < (row_to_cols (locate_table_titles g) p.1).length :=
      one_lt_length_of_two_mem hpm hqm (by omega)
    have hlenq : 1 < (row_to_cols (locate_table_titles g) q.1).length := by
      rw [← heq]; exact hlen
    have hspp := (horizontalOf_spec g hpm (locate_shape hp).2.1).2 hlen
    have hspq := (horizontalOf_spec g hqm0 (locate_shape hq).2.1).2 hlenq
    have hsppr : (horizontalOf g p.1 p.2.1).2 =
        nextAfter (List.insertionSort (· ≤ ·)
          (row_to_cols (locate_table_titles g) p.1)) g.cols p.2.1 := by rw [hspp]
    have hsql : (horizontalOf g q.1 q.2.1).1 = q.2.1 := by rw [hspq]
    rw [hsppr] at hcp
    rw [hsql] at hcq
    have hnle : nextAfter (List.insertionSort (· ≤ ·)
        (row_to_cols (locate_table_titles g) p.1)) g.cols p.2.1 ≤ q.2.1 :=
      nextAfter_le _ (sortedCols_pairwise g p.1)
        ((List.perm_insertionSort _ _).mem_iff.mpr hpm)
        ((List.perm_insertionSort _ _).mem_iff.mpr hqm) hclt g.cols
    omega

theorem extractLoop_rects_sublist (g : Grid) (rowB : List (Nat × Nat))
    (rowCols : Nat → List Nat) :
    ∀ (ps : List (Nat × Nat × String)) (used : List Rect)
      (counts : List (String × Nat)),
    ((extractLoop g rowB rowCols ps used counts).map (fun e => e.rect)).Sublist
      (ps.map (fun p => rectWith rowB rowCols g.cols p)) := by
  intro ps
  induction ps with
  | nil => intro used counts; simp [extractLoop]
  | cons p rest ih =>
    intro used counts
    obtain ⟨sr, sc, bt⟩ := p
    simp only [extractLoop, List.map_cons]
    split
    · exact (ih _ _).cons _
    · split
      · simp only [List.map_cons]
        exact (ih _ _).cons₂ _
      · exact (ih _ _).cons _

/-- C3: the source rectangles of any two distinct tables emitted by
`find_tables_in_spreadsheet` are disjoint in original grid coordinates —
anchors on different rows get disjoint vertical spans, anchors sharing a
row get disjoint column segments. -/
theorem C3_rects_pairwise_disjoint (g : Grid) :
    List.Pairwise RectDisjoint (find_tables_rects g) := by
  have hsub : (find_tables_rects g).Sublist
      ((locate_table_titles g).map (fun p => rectOf g p)) :=
    extractLoop_rects_sublist g
      (calculate_row_boundaries (locate_table_titles g) g.rows)
      (row_to_cols (locate_table_titles g)) (locate_table_titles g) [] []
  have hpw : List.Pairwise RectDisjoint
      ((locate_table_titles g).map (fun p => rectOf g p)) := by
    rw [List.pairwise_map]
    exact List.Pairwise.imp_of_mem
      (fun ha hb hlt => rectOf_disjoint g ha hb hlt) (locate_pairwiseLT g)
  exact List.Pairwise.sublist hsub hpw

/-! ## Duplicate-title naming (C5, C10) -/

theorem lookupCount_setCount_self : ∀ (cs : List (String × Nat)) (k : String) (v : Nat),
    lookupCount (setCount cs k v) k = some v := by
  intro cs
  induction cs with
  | nil => intro k v; simp [setCount, lookupCount]
  | cons e rest ih =>
    intro k v
    obtain ⟨k0, w⟩ := e
    rw [setCount]
    by_cases hk : k0 = k
    · rw [if_pos hk, lookupCount, if_pos hk]
    · rw [if_neg hk, lookupCount, if_neg hk]
      exact ih k v

theorem lookupCount_setCount_ne : ∀ (cs : List (String × Nat)) (k k' : String) (v : Nat),
    k ≠ k' → lookupCount (setCount cs k v) k' = lookupCount cs k' := by
  intro cs
  induction cs with
  | nil =>
    intro k k' v hne
    simp [setCount, lookupCount, hne]
  | cons e rest ih =>
    intro k k' v hne
    obtain ⟨k0, w⟩ := e
    rw [setCount]
    by_cases hk : k0 = k
    · subst hk
      rw [if_pos rfl, lookupCount, lookupCount]
      by_cases h2 : k0 = k'
      · exact absurd h2 hne
      · rw [if_neg h2, if_neg h2]
    · rw [if_neg hk, lookupCount, lookupCount]
      by_cases h2 : k0 = k'
      · rw [if_pos h2, if_pos h2]
      · rw [if_neg h2, if_neg h2]
        exact ih k k' v hne

theorem keepable_iff (g : Grid) (p : Nat × Nat × String) :
    keepable g p = true ↔
      (2 ≤ (blockOf g p).length ∧ 2 ≤ ncolsOf (blockOf g p)) := by
  unfold keepable
  rw [Bool.and_eq_true, decide_eq_true_iff, decide_eq_true_iff]

theorem extractLoop_eq_emitPure (g : Grid) :
    ∀ (ps : List (Nat × Nat × String)) (used : List Rect)
      (counts : List (String × Nat)),
    (∀ p ∈ ps, p ∈ locate_table_titles g) → List.Pairwise posLT ps →
    (∀ p ∈ ps, ∀ rc ∈ used,
      rc.containsCell (p : Nat × Nat × String).1 p.2.1 = false) →
    extractLoop g (calculate_row_boundaries (locate_table_titles g) g.rows)
      (row_to_cols (locate_table_titles g)) ps used counts =
    emitPure g (calculate_row_boundaries (locate_table_titles g) g.rows)
      (row_to_cols (locate_table_titles g)) ps counts := by
  intro ps
  induction ps with
  | nil => intro used counts _ _ _; rfl
  | cons p rest ih =>
    intro used counts hsub hpw hmask
    obtain ⟨sr, sc, bt⟩ := p
    have hmaskp : maskLookup used g.rows g.cols sr sc = false := by
      unfold maskLookup
      rw [List.any_eq_false]
      intro rc hrc
      have h2 := hmask (sr, sc, bt) (List.mem_cons_self _ _) rc hrc
      simp [h2]
    simp only [extractLoop, emitPure, hmaskp, Bool.false_eq_true, if_false]
    split
    · congr 1
      apply ih
      · exact fun q hq => hsub q (List.mem_cons_of_mem _ hq)
      · exact (List.pairwise_cons.mp hpw).2
      · intro q hq rc hrc
        rcases List.mem_cons.mp hrc with rfl | hrc2
        · show (rectOf g (sr, sc, bt)).containsCell q.1 q.2.1 = false
          cases hcb : (rectOf g (sr, sc, bt)).containsCell q.1 q.2.1
          · rfl
          · exfalso
            have hq' := hsub q (List.mem_cons_of_mem _ hq)
            have hp' := hsub (sr, sc, bt) (List.mem_cons_self _ _)
            have hlt : posLT (sr, sc, bt) q := (List.pairwise_cons.mp hpw).1 q hq
            exact rectOf_disjoint g hp' hq' hlt q.1 q.2.1 hcb (cell_in_own_rect hq')
        · exact hmask q (List.mem_cons_of_mem _ hq) rc hrc2
    · apply ih
      · exact fun q hq => hsub q (List.mem_cons_of_mem _ hq)
      · exact (List.pairwise_cons.mp hpw).2
      · exact fun q hq rc hrc => hmask q (List.mem_cons_of_mem _ hq) rc hrc

theorem find_tables_entries_eq (g : Grid) :
    find_tables_entries g =
      emitPure g (calculate_row_boundaries (locate_table_titles g) g.rows)
        (row_to_cols (locate_table_titles g)) (locate_table_titles g) [] := by
  apply extractLoop_eq_emitPure g (locate_table_titles g) [] []
  · exact fun p hp => hp
  · exact locate_pairwiseLT g
  · intro p _ rc hrc
    cases hrc

theorem emitPure_cons (g : Grid) (sr sc : Nat) (bt : String)
    (rest : List (Nat × Nat × String)) (counts : List (String × Nat)) :
    emitPure g (calculate_row_boundaries (locate_table_titles g) g.rows)
      (row_to_cols (locate_table_titles g)) ((sr, sc, bt) :: rest) counts =
    (if keepable g (sr, sc, bt) then
      [⟨bt, (resolveName counts bt).2, rectOf g (sr, sc, bt),
        blockOf g (sr, sc, bt)⟩]
     else []) ++
    emitPure g (calculate_row_boundaries (locate_table_titles g) g.rows)
      (row_to_cols (locate_table_titles g)) rest (resolveName counts bt).1 := by
  simp only [emitPure]
  split
  next hk =>
    rw [if_pos ((keepable_iff g (sr, sc, bt)).mpr ⟨hk.1, hk.2⟩)]
    rfl
  next hk =>
    have hkn : ¬ (keepable g (sr, sc, bt) = true) := by
      intro hkp
      exact hk ((keepable_iff g (sr, sc, bt)).mp hkp)
    rw [if_neg hkn]
    rfl

theorem buildEmits_cons (g : Grid) (T : String) (cnt : Option Nat)
    (p : Nat × Nat × String) (rest : List (Nat × Nat × String)) :
    buildEmits g T cnt (p :: rest) =
      (if keepable g p then
        [((match cnt with
           | none => T
           | some n => T ++ " (" ++ Nat.repr (n + 1) ++ ")"), blockOf g p)]
      else []) ++
      buildEmits g T (some (match cnt with | none => 0 | some n => n + 1)) rest := rfl

theorem emitPure_filter_name (g : Grid) (T : String) :
    ∀ (ps : List (Nat × Nat × String)) (counts : List (String × Nat)),
    ((emitPure g (calculate_row_boundaries (locate_table_titles g) g.rows)
        (row_to_cols (locate_table_titles g)) ps counts).filter
      (fun e => e.base == T)).map (fun e => (e.name, e.block)) =
    buildEmits g T (lookupCount counts T)
      (ps.filter (fun p => p.2.2 == T)) := by
  intro ps
  induction ps with
  | nil => intro counts; rfl
  | cons p rest ih =>
    intro counts
    obtain ⟨sr, sc, bt⟩ := p
    rw [emitPure_cons, List.filter_append, List.map_append, List.filter_cons]
    by_cases hbt : bt = T
    · subst hbt
      rw [if_pos (show (((sr, sc, bt) : Nat × Nat × String).2.2 == bt) = true by simp)]
      rw [buildEmits_cons]
      cases hcnt : lookupCount counts bt with
      | none =>
        have hrn2 : (resolveName counts bt).2 = bt := by
          simp only [resolveName, hcnt]
        have hrn1 : lookupCount (resolveName counts bt).1 bt = some 0 := by
          simp only [resolveName, hcnt]
          exact lookupCount_setCount_self counts bt 0
        rw [ih (resolveName counts bt).1, hrn1, hrn2]
        by_cases hkp : keepable g (sr, sc, bt) = true
        · rw [if_pos hkp, if_pos hkp]
          simp
        · rw [if_neg hkp, if_neg hkp]
          simp
      | some n =>
        have hrn2 : (resolveName counts bt).2 =
            bt ++ " (" ++ Nat.repr (n + 1) ++ ")" := by
          simp only [resolveName, hcnt]
        have hrn1 : lookupCount (resolveName counts bt).1 bt = some (n + 1) := by
          simp only [resolveName, hcnt]
          exact lookupCount_setCount_self counts bt (n + 1)
        rw [ih (resolveName counts bt).1, hrn1, hrn2]
        by_cases hkp : keepable g (sr, sc, bt) = true
        · rw [if_pos hkp, if_pos hkp]
          simp
        · rw [if_neg hkp, if_neg hkp]
          simp
    · rw [if_neg (show ¬ (((sr, sc, bt) : Nat × Nat × String).2.2 == T) = true by
        simp [hbt])]
      have hrn1 : lookupCount (resolveName counts bt).1 T = lookupCount counts T := by
        cases hcnt : lookupCount counts bt with
        | none =>
          simp only [resolveName, hcnt]
          exact lookupCount_setCount_ne counts bt T _ hbt
        | some n =>
          simp only [resolveName, hcnt]
          exact lookupCount_setCount_ne counts bt T _ hbt
      rw [ih (resolveName counts bt).1, hrn1]
      by_cases hkp : keepable g (sr, sc, bt) = true
      · rw [if_pos hkp]
        simp [hbt]
      · rw [if_neg hkp]
        simp

theorem name_one (T : String) : T ++ " (" ++ Nat.repr 1 ++ ")" = T ++ " (1)" := by
  rw [String.append_assoc, String.append_assoc]
  exact congrArg (fun s => T ++ s) (by decide)

theorem name_two (T : String) : T ++ " (" ++ Nat.repr 2 ++ ")" = T ++ " (2)" := by
  rw [String.append_assoc, String.append_assoc]
  exact congrArg (fun s => T ++ s) (by decide)

theorem paren_name_ne (T : String) (k : Nat) :
    T ++ " (" ++ Nat.repr k ++ ")" ≠ T := by
  intro h
  have hlen := congrArg String.length h
  rw [String.length_append, String.length_append, String.length_append] at hlen
  have h2 : (" (" : String).length = 2 := rfl
  have h3 : ((")" : String)).length = 1 := rfl
  omega

theorem catalog_ne_paren {T B s : String} (hT : T ∈ TABLE_TITLES) :
    T ≠ B ++ " (" ++ s ++ ")" := by
  intro h
  have hlast : (B ++ " (" ++ s ++ ")").data.getLast? = some (')') := by
    rw [String.data_append, List.getLast?_append]
    rfl
  rw [← h] at hlast
  simp only [TABLE_TITLES, List.mem_cons, List.not_mem_nil, or_false] at hT
  rcases hT with rfl | rfl | rfl | rfl | rfl | rfl | rfl | rfl | rfl
  all_goals exact absurd hlast (by decide)

theorem emitPure_name_shape (g : Grid) :
    ∀ (ps : List (Nat × Nat × String)) (counts : List (String × Nat)) (e : Entry),
    e ∈ emitPure g (calculate_row_boundaries (locate_table_titles g) g.rows)
      (row_to_cols (locate_table_titles g)) ps counts →
    e.name = e.base ∨
      ∃ k : Nat, e.name = e.base ++ " (" ++ Nat.repr (k + 1) ++ ")" := by
  intro ps
  induction ps with
  | nil => intro counts e he; cases he
  | cons p rest ih =>
    intro counts e he
    obtain ⟨sr, sc, bt⟩ := p
    rw [emitPure_cons] at he
    rcases List.mem_append.mp he with h1 | h2
    · by_cases hk : keepable g (sr, sc, bt) = true
      · rw [if_pos hk, List.mem_singleton] at h1
        subst h1
        cases hcnt : lookupCount counts bt with
        | none => left; simp [resolveName, hcnt]
        | some n => right; exact ⟨n, by simp [resolveName, hcnt]⟩
      · rw [if_neg hk] at h1
        cases h1
    · exact ih _ e h2

theorem buildEmits_some_name_ne (g : Grid) (T : String) :
    ∀ (fs : List (Nat × Nat × String)) (n : Nat)
      (x : String × List (List String)),
    x ∈ buildEmits g T (some n) fs → x.1 ≠ T := by
  intro fs
  induction fs with
  | nil => intro n x hx; cases hx
  | cons p rest ih =>
    intro n x hx
    rw [buildEmits_cons] at hx
    rcases List.mem_append.mp hx with hx1 | hx2
    · by_cases hk : keepable g p = true
      · rw [if_pos hk, List.mem_singleton] at hx1
        rw [hx1]
        exact paren_name_ne T (n + 1)
      · rw [if_neg hk] at hx1
        cases hx1
    · exact ih (n + 1) x hx2

/-- C5: when a catalog title `T` occurs exactly three times and each
occurrence's raw block passes the 2 × 2 check, the three tables are
emitted under the names `T`, `T (1)`, `T (2)`, assigned in anchor
(row-major) order, with the corresponding blocks. -/
theorem C5_duplicate_titles (g : Grid) (T : String)
    (p1 p2 p3 : Nat × Nat × String)
    (hf : (locate_table_titles g).filter (fun p => p.2.2 == T) = [p1, p2, p3])
    (hk1 : keepable g p1 = true) (hk2 : keepable g p2 = true)
    (hk3 : keepable g p3 = true) :
    ((find_tables_entries g).filter (fun e => e.base == T)).map
      (fun e => (e.name, e.block)) =
    [(T, blockOf g p1), (T ++ " (1)", blockOf g p2),
      (T ++ " (2)", blockOf g p3)] := by
  rw [find_tables_entries_eq, emitPure_filter_name, hf,
    buildEmits_cons, if_pos hk1, buildEmits_cons, if_pos hk2,
    buildEmits_cons, if_pos hk3]
  show [(T, blockOf g p1), (T ++ " (" ++ Nat.repr 1 ++ ")", blockOf g p2),
        (T ++ " (" ++ Nat.repr 2 ++ ")", blockOf g p3)] = _
  rw [name_one, name_two]

theorem C5_duplicate_titles_witness :
    (locate_table_titles gridC5).filter (fun p => p.2.2 == "DISCOUNT RATE") =
      [(0, 0, "DISCOUNT RATE"), (3, 0, "DISCOUNT RATE"), (6, 0, "DISCOUNT RATE")] ∧
    keepable gridC5 (0, 0, "DISCOUNT RATE") = true ∧
    keepable gridC5 (3, 0, "DISCOUNT RATE") = true ∧
    keepable gridC5 (6, 0, "DISCOUNT RATE") = true ∧
    ((find_tables_entries gridC5).filter (fun e => e.base == "DISCOUNT RATE")).map
      (fun e => (e.name, e.block)) =
    [("DISCOUNT RATE", blockOf gridC5 (0, 0, "DISCOUNT RATE")),
     ("DISCOUNT RATE" ++ " (1)", blockOf gridC5 (3, 0, "DISCOUNT RATE")),
     ("DISCOUNT RATE" ++ " (2)", blockOf gridC5 (6, 0, "DISCOUNT RATE"))] :=
  ⟨by decide, by decide, by decide, by decide,
   C5_duplicate_titles gridC5 "DISCOUNT RATE"
     (0, 0, "DISCOUNT RATE") (3, 0, "DISCOUNT RATE") (6, 0, "DISCOUNT RATE")
     (by decide) (by decide) (by decide) (by decide)⟩

/-- C10: the duplicate-title counter advances on every processed
occurrence of a base title, including occurrences whose block is
discarded for being smaller than 2 × 2: if the first occurrence of a
catalog title `T` is discarded and the second occurrence yields a
keepable block, that block is emitted under the name `T (1)`, and the
bare name `T` never appears among the emitted names. -/
theorem C10_counter_advances (g : Grid) (T : String)
    (hT : T ∈ TABLE_TITLES)
    (p1 p2 : Nat × Nat × String) (rest : List (Nat × Nat × String))
    (hf : (locate_table_titles g).filter (fun p => p.2.2 == T) = p1 :: p2 :: rest)
    (hk1 : keepable g p1 = false) (hk2 : keepable g p2 = true) :
    ((find_tables_entries g).filter (fun e => e.base == T)).map
        (fun e => (e.name, e.block)) =
      (T ++ " (1)", blockOf g p2) :: buildEmits g T (some 1) rest ∧
    ∀ e ∈ find_tables_entries g, e.name ≠ T := by
  have hch : ((find_tables_entries g).filter (fun e => e.base == T)).map
      (fun e => (e.name, e.block)) =
      (T ++ " (1)", blockOf g p2) :: buildEmits g T (some 1) rest := by
    rw [find_tables_entries_eq, emitPure_filter_name, hf,
      buildEmits_cons, if_neg (by simp [hk1]), buildEmits_cons, if_pos hk2]
    show (T ++ " (" ++ Nat.repr 1 ++ ")", blockOf g p2) ::
      buildEmits g T (some 1) rest = _
    rw [name_one]
  refine ⟨hch, ?_⟩
  intro e he hname
  have he2 := he
  rw [find_tables_entries_eq] at he2
  rcases emitPure_name_shape g (locate_table_titles g) [] e he2 with hshape | ⟨k, hshape⟩
  · have hbase : (e.base == T) = true := by
      rw [← hshape, hname]
      simp
    have hmem2 : (e.name, e.block) ∈
        ((find_tables_entries g).filter (fun e => e.base == T)).map
          (fun e => (e.name, e.block)) :=
      List.mem_map.mpr ⟨e, List.mem_filter.mpr ⟨he, hbase⟩, rfl⟩
    rw [hch] at hmem2
    rcases List.mem_cons.mp hmem2 with heq | hmem3
    · have h5 : e.name = T ++ " (1)" := congrArg Prod.fst heq
      rw [hname] at h5
      have hlen := congrArg String.length h5
      rw [String.length_append] at hlen
      have h6 : (" (1)" : String).length = 4 := rfl
      omega
    · exact buildEmits_some_name_ne g T rest 1 (e.name, e.block) hmem3 hname
  · rw [hname] at hshape
    exact catalog_ne_paren hT hshape

theorem C10_counter_advances_witness :
    "DISCOUNT RATE" ∈ TABLE_TITLES ∧
    (locate_table_titles gridC10).filter (fun p => p.2.2 == "DISCOUNT RATE") =
      [(0, 0, "DISCOUNT RATE"), (2, 0, "DISCOUNT RATE")] ∧
    keepable gridC10 (0, 0, "DISCOUNT RATE") = false ∧
    keepable gridC10 (2, 0, "DISCOUNT RATE") = true ∧
    (((find_tables_entries gridC10).filter
        (fun e => e.base == "DISCOUNT RATE")).map (fun e => (e.name, e.block)) =
      ("DISCOUNT RATE" ++ " (1)", blockOf gridC10 (2, 0, "DISCOUNT RATE")) ::
        buildEmits gridC10 "DISCOUNT RATE" (some 1) [] ∧
      ∀ e ∈ find_tables_entries gridC10, e.name ≠ "DISCOUNT RATE") :=
  ⟨by decide, by decide, by decide, by decide,
   C10_counter_advances gridC10 "DISCOUNT RATE" (by decide)
     (0, 0, "DISCOUNT RATE") (2, 0, "DISCOUNT RATE") []
     (by decide) (by decide) (by decide)⟩
